import Mathlib

/-!
Verification of the response-parsing, normalization and artifact-archiving core
of the ai_powered_sdlc_code pipeline.

The Python source is shallowly embedded over `List Char`:
* `pstrip` models `str.strip()` (ASCII whitespace fragment).
* `findTagBlocks` models
  `re.findall(r">>>FILE_PATH_START<<<\s*(.*?)\s*>>>FILE_PATH_END<<<\s*>>>FILE_CONTENT_START<<<\n([\s\S]*?)\n>>>FILE_CONTENT_END<<<", text)`
  (UnitTestcaseGenerationAgent.generate_tests, SetUpguideAgent.generate_code,
  ProductionMonitorAgent.generate_code), including the leftmost, non-overlapping
  scan, the greedy `\s*` runs and the lazy groups (`.` does not cross a newline).
* `findallFallback` models the fallback scrapers: a greedy run of word, dash or
  slash characters, followed by the literal ".py" (unit-test agent) or by the
  literal "." (setup-guide and monitor agents), then lazily up to the next fenced
  code block whose lazy body is the second capture group; the scrapers are
  parameterized by the literal that must follow the run.
* `dictInsert`/`buildFiles` model the insertion-ordered Python dict built by
  `files[file_path.strip()] = file_content.strip()`.
* `sub1Go`/`sub2Go`/`normalize` model the two `re.sub` fence-removal passes of
  `app/util/safe_text_genneration.py` (both run with `flags=re.MULTILINE`).
* `json_loads` models the strict JSON grammar accepted by Python's `json.loads`
  (numbers kept as their matched lexeme; CPython error strings and surrogate-pair
  combination are not reproduced, only success/failure and the decoded value).
* `WorkflowState` and the stage functions `generate_tests`, `generate_code`,
  `analyze` model the mutated `WorkflowState` TypedDict and the agent methods;
  the LLM call is an input (`LLMReply`), the in-memory ZIP is modelled by its
  ordered entry list (`ZipArchive`).
-/

namespace AISDLC

abbrev Str := List Char

/-- ASCII fragment of the whitespace set stripped by Python's `str.strip()`
and matched by `\s`: space, tab, newline, carriage return, vertical tab, form feed. -/
def isPyWs (c : Char) : Bool :=
  c = ' ' || c = '\t' || c = '\n' || c = '\r' || c = Char.ofNat 11 || c = Char.ofNat 12

/-- Model of Python `str.strip()`. -/
def pstrip (s : Str) : Str :=
  ((s.dropWhile isPyWs).reverse.dropWhile isPyWs).reverse

/-- Backtick character (written via its code point). -/
def btChar : Char := Char.ofNat 96

def pathStartM : Str := ">>>FILE_PATH_START<<<".toList
def pathEndM : Str := ">>>FILE_PATH_END<<<".toList
def contentStartM : Str := ">>>FILE_CONTENT_START<<<".toList
def contentEndM : Str := ">>>FILE_CONTENT_END<<<".toList

/-- Greedy `\s*` followed by the literal token `tok`: drop the maximal whitespace
run, then require `tok`. (Since the markers start with a non-whitespace character,
the token can only match immediately after the maximal run.) Returns the rest. -/
def wsThenTok (tok : Str) (t : Str) : Option Str :=
  let t1 := t.dropWhile isPyWs
  if tok.isPrefixOf t1 then some (t1.drop tok.length) else none

/-- Lazy `(.*?)\s*>>>FILE_PATH_END<<<`: grow the captured group one character at
a time (never across a newline, since `.` does not match `\n`), at each point
first trying `\s*` followed by the end marker. Returns (group, rest after marker). -/
def matchPathCore : Str → Option (Str × Str)
  | [] =>
    match wsThenTok pathEndM [] with
    | some rest => some ([], rest)
    | none => none
  | ch :: t =>
    match wsThenTok pathEndM (ch :: t) with
    | some rest => some ([], rest)
    | none =>
      if ch = '\n' then none
      else (matchPathCore t).map fun pr => (ch :: pr.1, pr.2)

/-- The full `\s*(.*?)\s*>>>FILE_PATH_END<<<` part: the leading greedy `\s*`
consumes the maximal whitespace run (backtracking it can never produce a match
that the maximal run does not). -/
def matchPath (t : Str) : Option (Str × Str) :=
  matchPathCore (t.dropWhile isPyWs)

/-- Lazy `([\s\S]*?)\n>>>FILE_CONTENT_END<<<`: the group ends at the first
occurrence of a newline followed by the end marker. Returns (group, rest). -/
def matchContent : Str → Option (Str × Str)
  | [] => none
  | ch :: t =>
    if ('\n' :: contentEndM).isPrefixOf (ch :: t) then
      some ([], t.drop contentEndM.length)
    else
      (matchContent t).map fun pr => (ch :: pr.1, pr.2)

/-- One attempted match of the whole tag pattern anchored at the start of `t`:
the path-start marker, the path part, `\s*>>>FILE_CONTENT_START<<<`, a literal
newline, then the content part. Returns (path group, content group, rest). -/
def tryMatchTag (t : Str) : Option (Str × Str × Str) :=
  if pathStartM.isPrefixOf t then
    match matchPath (t.drop pathStartM.length) with
    | none => none
    | some (p, r1) =>
      match wsThenTok contentStartM r1 with
      | none => none
      | some r2 =>
        match r2 with
        | c0 :: r3 =>
          if c0 = '\n' then
            match matchContent r3 with
            | none => none
            | some (c, r4) => some (p, c, r4)
          else none
        | [] => none
  else none

/-- Fuelled leftmost non-overlapping scan of `re.findall` for the tag pattern:
try a match at every position; on success continue after the match, otherwise
advance one character. -/
def findTagBlocksF : Nat → Str → List (Str × Str)
  | 0, _ => []
  | _ + 1, [] => []
  | fuel + 1, ch :: t =>
    match tryMatchTag (ch :: t) with
    | some pr => (pr.1, pr.2.1) :: findTagBlocksF fuel pr.2.2
    | none => findTagBlocksF fuel t

/-- `re.findall` of the tag pattern over the whole text. -/
def findTagBlocks (t : Str) : List (Str × Str) :=
  findTagBlocksF t.length t

/-- A character of the class `[\w\-⧸]` (word characters, dash, forward slash);
`\w` is modelled by its ASCII fragment. -/
def isWordChar (c : Char) : Bool :=
  c.isAlpha || c.isDigit || c = '_' || c = '-' || c = '/'

/-- The fence token: three backticks. -/
def fenceM : Str := [btChar, btChar, btChar]

/-- The opening fence with language tag: three backticks then "json". -/
def fenceJsonM : Str := btChar :: btChar :: btChar :: "json".toList

/-- Lazy `[\s\S]*?` up to the next fence token: returns the rest after that
first fence. -/
def findFence : Str → Option Str
  | [] => none
  | ch :: t =>
    if fenceM.isPrefixOf (ch :: t) then some ((ch :: t).drop fenceM.length)
    else findFence t

/-- Lazy fenced body: the group ends at the first following fence token.
Returns (group, rest after the closing fence). -/
def uptoFence : Str → Option (Str × Str)
  | [] => none
  | ch :: t =>
    if fenceM.isPrefixOf (ch :: t) then some ([], (ch :: t).drop fenceM.length)
    else (uptoFence t).map fun pr => (ch :: pr.1, pr.2)

/-- One attempted match of a fallback pattern anchored at the start of `t`:
a non-empty greedy run of `isWordChar` characters, the literal `lit` (".py" for
the unit-test agent, "." for the setup-guide and monitor agents), then lazily up
to the next fence, whose lazily delimited body is the content group.
Returns (path group, content group, rest). -/
def tryFallbackAt (lit : Str) (t : Str) : Option (Str × Str × Str) :=
  let run := t.takeWhile isWordChar
  if run.isEmpty then none
  else if lit.isPrefixOf (t.drop run.length) then
    match findFence (t.drop (run.length + lit.length)) with
    | none => none
    | some t2 =>
      match uptoFence t2 with
      | none => none
      | some (body, rest) => some (run ++ lit, body, rest)
  else none

/-- Fuelled leftmost non-overlapping `re.findall` scan for a fallback pattern. -/
def findallFallbackF (lit : Str) : Nat → Str → List (Str × Str)
  | 0, _ => []
  | _ + 1, [] => []
  | fuel + 1, ch :: t =>
    match tryFallbackAt lit (ch :: t) with
    | some pr => (pr.1, pr.2.1) :: findallFallbackF lit fuel pr.2.2
    | none => findallFallbackF lit fuel t

/-- `re.findall` of a fallback pattern over the whole text. -/
def findallFallback (lit : Str) (t : Str) : List (Str × Str) :=
  findallFallbackF lit t.length t

/-- The literal after the run in the unit-test agent's fallback pattern. -/
def litPy : Str := ".py".toList

/-- The literal after the run in the setup-guide and monitor agents' fallback
pattern (the extension is not part of the capture group there). -/
def litDot : Str := ".".toList

/-- Insertion into a Python dict modelled as an insertion-ordered association
list: an existing key keeps its position and gets the new value (last write
wins), a fresh key is appended. -/
def dictInsert {α : Type} (d : List (Str × α)) (k : Str) (v : α) : List (Str × α) :=
  if d.any (fun p => p.1 == k) then
    d.map (fun p => if p.1 == k then (k, v) else p)
  else d ++ [(k, v)]

/-- The loop `for file_path, file_content in matches: files[file_path.strip()] =
file_content.strip()` over an empty initial dict. -/
def buildFiles (ms : List (Str × Str)) : List (Str × Str) :=
  ms.foldl (fun d m => dictInsert d (pstrip m.1) (pstrip m.2)) []

/-- The delimited-file parser of a file-producing stage: tag-grammar matches
turned into a path → content mapping. -/
def tagParse (s : Str) : List (Str × Str) :=
  buildFiles (findTagBlocks s)

/-- The fallback scraper result turned into a path → content mapping. -/
def fallbackParse (lit : Str) (s : Str) : List (Str × Str) :=
  buildFiles (findallFallback lit s)

/-- First `re.sub` pass of `safe_json_loads`: remove `^(three backticks)(json)?`
at the start of any line (`re.MULTILINE`), with the scan resuming after each
match so at most one marker is removed per line start. `atStart` records whether
the current position is the start of the text or just after a newline. -/
def sub1GoF : Nat → Bool → Str → Str
  | 0, _, t => t
  | _ + 1, _, [] => []
  | fuel + 1, atStart, ch :: t =>
    if atStart && fenceJsonM.isPrefixOf (ch :: t) then
      sub1GoF fuel false ((ch :: t).drop fenceJsonM.length)
    else if atStart && fenceM.isPrefixOf (ch :: t) then
      sub1GoF fuel false ((ch :: t).drop fenceM.length)
    else ch :: sub1GoF fuel (ch == '\n') t

def sub1 (t : Str) : Str := sub1GoF t.length true t

/-- Second `re.sub` pass of `safe_json_loads`: remove a fence token matched by
a multiline-mode `$` right before it, i.e. a fence immediately followed by a
newline or the end of the text; the scan resumes at the newline. -/
def sub2GoF : Nat → Str → Str
  | 0, t => t
  | _ + 1, [] => []
  | fuel + 1, ch :: t =>
    let rest := (ch :: t).drop fenceM.length
    if fenceM.isPrefixOf (ch :: t) && (rest.isEmpty || rest.head? == some '\n') then
      sub2GoF fuel rest
    else ch :: sub2GoF fuel t

def sub2 (t : Str) : Str := sub2GoF t.length t

/-- The fence-removal normalization inside `safe_json_loads`:
`text = re.sub(r"^(fence)(json)?", "", text.strip(), flags=re.MULTILINE)` then
`text = re.sub(r"(fence)$", "", text.strip(), flags=re.MULTILINE)`. Note the
result of the second pass is not stripped again. -/
def normalize (s : Str) : Str :=
  sub2 (pstrip (sub1 (pstrip s)))

/-- Structured JSON value as decoded by Python's `json.loads`. Numeric literals
are kept as their matched lexeme (their arithmetic value plays no role here). -/
inductive Json where
  | null : Json
  | bool (b : Bool) : Json
  | num (lexeme : Str) : Json
  | str (s : Str) : Json
  | arr (elems : List Json) : Json
  | obj (fields : List (Str × Json)) : Json

/-- Whitespace skipped by Python's json decoder (space, tab, newline, return). -/
def jsonWs (c : Char) : Bool :=
  c = ' ' || c = '\t' || c = '\n' || c = '\r'

def skipJsonWs (t : Str) : Str := t.dropWhile jsonWs

def hexVal (c : Char) : Option Nat :=
  let n := c.toNat
  if 48 ≤ n && n ≤ 57 then some (n - 48)
  else if 97 ≤ n && n ≤ 102 then some (n - 87)
  else if 65 ≤ n && n ≤ 70 then some (n - 55)
  else none

def lbraceC : Char := Char.ofNat 123
def rbraceC : Char := Char.ofNat 125

/-- JSON string body after the opening quote, strict mode: plain characters
(control characters below 0x20 rejected), the escape sequences of the JSON
grammar, and `\uXXXX` (decoded to the code point; surrogate-pair combination is
not reproduced). Returns (decoded content, rest after the closing quote). -/
def parseJString : Str → Option (Str × Str)
  | [] => none
  | c :: t =>
    if c = '"' then some ([], t)
    else if c = '\\' then
      match t with
      | [] => none
      | e :: t1 =>
        if e = '"' then (parseJString t1).map fun p => ('"' :: p.1, p.2)
        else if e = '\\' then (parseJString t1).map fun p => ('\\' :: p.1, p.2)
        else if e = '/' then (parseJString t1).map fun p => ('/' :: p.1, p.2)
        else if e = 'b' then (parseJString t1).map fun p => (Char.ofNat 8 :: p.1, p.2)
        else if e = 'f' then (parseJString t1).map fun p => (Char.ofNat 12 :: p.1, p.2)
        else if e = 'n' then (parseJString t1).map fun p => ('\n' :: p.1, p.2)
        else if e = 'r' then (parseJString t1).map fun p => ('\r' :: p.1, p.2)
        else if e = 't' then (parseJString t1).map fun p => ('\t' :: p.1, p.2)
        else if e = 'u' then
          match t1 with
          | h1 :: h2 :: h3 :: h4 :: t2 =>
            match hexVal h1, hexVal h2, hexVal h3, hexVal h4 with
            | some a, some b, some c3, some d =>
              (parseJString t2).map fun p =>
                (Char.ofNat (((a * 16 + b) * 16 + c3) * 16 + d) :: p.1, p.2)
            | _, _, _, _ => none
          | _ => none
        else none
    else if c.toNat < 32 then none
    else (parseJString t).map fun p => (c :: p.1, p.2)

def jdigits (t : Str) : Str × Str := (t.takeWhile Char.isDigit, t.dropWhile Char.isDigit)

/-- The integer part of the json number regex: `0` or a nonzero digit followed
by any digits. -/
def parseIntPart : Str → Option (Str × Str)
  | [] => none
  | c :: t =>
    if c = '0' then some ([c], t)
    else if c.isDigit then
      let (ds, r) := jdigits t
      some (c :: ds, r)
    else none

/-- The optional fraction group `(\.\d+)?`: taken only when a dot with at least
one digit follows. -/
def parseFracPart (t : Str) : Str × Str :=
  match t with
  | c :: t1 =>
    if c = '.' then
      let (ds, r) := jdigits t1
      if ds.isEmpty then ([], t) else (c :: ds, r)
    else ([], t)
  | [] => ([], t)

/-- The optional exponent group `([eE][-+]?\d+)?`. -/
def parseExpPart (t : Str) : Str × Str :=
  match t with
  | c :: t1 =>
    if c = 'e' || c = 'E' then
      match t1 with
      | s :: t2 =>
        if s = '+' || s = '-' then
          let (ds, r) := jdigits t2
          if ds.isEmpty then ([], t) else (c :: s :: ds, r)
        else
          let (ds, r) := jdigits t1
          if ds.isEmpty then ([], t) else (c :: ds, r)
      | [] => ([], t)
    else ([], t)
  | [] => ([], t)

/-- The json number regex `(-?(?:0|[1-9]\d*))(\.\d+)?([eE][-+]?\d+)?`:
returns the matched lexeme and the rest. -/
def parseNumber (t : Str) : Option (Str × Str) :=
  match t with
  | [] => none
  | c :: t1 =>
    if c = '-' then
      match parseIntPart t1 with
      | none => none
      | some (i, r1) =>
        let (f, r2) := parseFracPart r1
        let (ex, r3) := parseExpPart r2
        some (c :: (i ++ f ++ ex), r3)
    else
      match parseIntPart t with
      | none => none
      | some (i, r1) =>
        let (f, r2) := parseFracPart r1
        let (ex, r3) := parseExpPart r2
        some (i ++ f ++ ex, r3)

mutual

/-- One JSON value at the head of `t` (no leading whitespace): string, object,
array, the literals `null`/`true`/`false`, a number, or the Python-accepted
constants `NaN`, `Infinity`, `-Infinity`. -/
def parseValue : Nat → Str → Option (Json × Str)
  | 0, _ => none
  | fuel + 1, t =>
    match t with
    | [] => none
    | c :: t1 =>
      if c = '"' then (parseJString t1).map fun p => (.str p.1, p.2)
      else if c = lbraceC then parseObject fuel (skipJsonWs t1)
      else if c = '[' then parseArray fuel (skipJsonWs t1)
      else if "null".toList.isPrefixOf t then some (.null, t.drop 4)
      else if "true".toList.isPrefixOf t then some (.bool true, t.drop 4)
      else if "false".toList.isPrefixOf t then some (.bool false, t.drop 5)
      else
        match parseNumber t with
        | some (lx, r) => some (.num lx, r)
        | none =>
          if "NaN".toList.isPrefixOf t then some (.num "NaN".toList, t.drop 3)
          else if "Infinity".toList.isPrefixOf t then some (.num "Infinity".toList, t.drop 8)
          else if "-Infinity".toList.isPrefixOf t then some (.num "-Infinity".toList, t.drop 9)
          else none

/-- Object body after the opening brace, leading whitespace skipped. -/
def parseObject : Nat → Str → Option (Json × Str)
  | 0, _ => none
  | fuel + 1, t =>
    match t with
    | [] => none
    | c :: t1 =>
      if c = rbraceC then some (.obj [], t1)
      else parseMembers fuel [] (c :: t1)

/-- Object members starting at the opening quote of the next key; duplicate
keys resolve last-write-wins as in a Python dict. -/
def parseMembers : Nat → List (Str × Json) → Str → Option (Json × Str)
  | 0, _, _ => none
  | fuel + 1, acc, t =>
    match t with
    | [] => none
    | c :: t1 =>
      if c = '"' then
        match parseJString t1 with
        | none => none
        | some (k, r1) =>
          match skipJsonWs r1 with
          | ':' :: r2 =>
            match parseValue fuel (skipJsonWs r2) with
            | none => none
            | some (v, r3) =>
              match skipJsonWs r3 with
              | [] => none
              | c2 :: r4 =>
                if c2 = rbraceC then some (.obj (dictInsert acc k v), r4)
                else if c2 = ',' then parseMembers fuel (dictInsert acc k v) (skipJsonWs r4)
                else none
          | _ => none
      else none

/-- Array body after the opening bracket, leading whitespace skipped. -/
def parseArray : Nat → Str → Option (Json × Str)
  | 0, _ => none
  | fuel + 1, t =>
    match t with
    | [] => none
    | c :: t1 =>
      if c = ']' then some (.arr [], t1)
      else parseElems fuel [] (c :: t1)

/-- Array elements starting at the first character of the next element. -/
def parseElems : Nat → List Json → Str → Option (Json × Str)
  | 0, _, _ => none
  | fuel + 1, acc, t =>
    match parseValue fuel t with
    | none => none
    | some (v, r1) =>
      match skipJsonWs r1 with
      | [] => none
      | c2 :: r2 =>
        if c2 = ']' then some (.arr (acc ++ [v]), r2)
        else if c2 = ',' then parseElems fuel (acc ++ [v]) (skipJsonWs r2)
        else none

end

/-- Model of `json.loads`: skip leading whitespace, decode one value, require
only whitespace after it. The fuel is ample: along any call chain at most three
fuel decrements happen per consumed input character. -/
def json_loads (s : Str) : Option Json :=
  let t := skipJsonWs s
  match parseValue (4 * t.length + 4) t with
  | some (v, rest) => if (skipJsonWs rest).isEmpty then some v else none
  | none => none

/-- Failure outcomes of `safe_json_loads`: the `ValueError("Empty response
received from LLM")` raised on empty or whitespace-only input, and the
`ValueError` raised when json parsing fails, carrying `text[:500]` of the
fence-stripped text as its diagnostic preview. -/
inductive SJError where
  | emptyReply : SJError
  | malformed (preview : Str) : SJError

/-- Model of `app.util.safe_text_genneration.safe_json_loads`. -/
def safe_json_loads (s : Str) : Except SJError Json :=
  if (pstrip s).isEmpty then .error .emptyReply
  else
    let t := normalize s
    match json_loads t with
    | some v => .ok v
    | none => .error (.malformed (t.take 500))

/-- The in-memory ZIP buffer produced by `zipfile.ZipFile(..., "w",
zipfile.ZIP_DEFLATED)` with one `writestr(path, content)` per mapping item,
modelled by its ordered entry sequence (the deflate byte serialization is
abstracted to the entries it encodes). -/
structure ZipArchive where
  entries : List (Str × Str)

/-- `writestr` each item of `files` in iteration order into a fresh buffer. -/
def mkZip (files : List (Str × Str)) : ZipArchive := ⟨files⟩

/-- Reading the archive back: its entries in order. -/
def readZip (z : ZipArchive) : List (Str × Str) := z.entries

/-- The `WorkflowState` TypedDict, including the extra keys the agents write
(`generated_zip`, `generated_container_code`, `generated_readme_code`,
`generated_monitor_configs`). `generated_zip` is `none` until some stage first
assigns it. -/
structure WorkflowState where
  swagger_content : Json
  user_stories : List Json
  generated_code : List (Str × Str)
  unit_tests : List (Str × Str)
  current_step : Str
  errors : List Str
  metadata : Json
  generated_container_code : List (Str × Str)
  generated_readme_code : List (Str × Str)
  generated_monitor_configs : List (Str × Str)
  generated_zip : Option ZipArchive

/-- Outcome of the awaited LLM call: the reply object's `content`, or an
exception message caught by the stage's `except Exception as e` handler. -/
inductive LLMReply where
  | ok (content : Str) : LLMReply
  | exn (msg : Str) : LLMReply

namespace TestGeneratorAgent

/-- Error entry `f"Code generation failed: No files found in LLM response.
Raw content:\n{raw_content[:1000]}"`. -/
def errNoFiles (preview : Str) : Str :=
  "Code generation failed: No files found in LLM response. Raw content:\n".toList ++ preview

/-- Error entry of the exception handler. -/
def errExn (msg : Str) : Str := "Code generation failed: ".toList ++ msg

/-- Model of `TestGeneratorAgent.generate_tests`
(`app/agent/test/UnitTestcaseGenerationAgent.py`): parse the stripped reply with
the tag grammar; if no matches, try the `.py` fallback scraper; write
`unit_tests` (and `generated_zip` when files were found, or an error entry when
not), then advance `current_step` to `"generated_container_code"`. -/
def generate_tests (state : WorkflowState) (response : LLMReply) : WorkflowState :=
  match response with
  | .exn e => { state with errors := state.errors ++ [errExn e] }
  | .ok content =>
    let raw_content := pstrip content
    let tagMatches := findTagBlocks raw_content
    if tagMatches.isEmpty then
      let fallback_matches := findallFallback litPy raw_content
      if ¬ fallback_matches.isEmpty then
        let files := buildFiles fallback_matches
        { state with
            unit_tests := files
            generated_zip := some (mkZip files)
            current_step := "generated_container_code".toList }
      else
        { state with
            errors := state.errors ++ [errNoFiles (raw_content.take 1000)]
            unit_tests := []
            current_step := "generated_container_code".toList }
    else
      let files := buildFiles tagMatches
      { state with
          unit_tests := files
          generated_zip := some (mkZip files)
          current_step := "generated_container_code".toList }

end TestGeneratorAgent

namespace SetUpGuideAgent

/-- Error entry of the exception handler (`f"container code  failed: ..."`). -/
def errExn (msg : Str) : Str := "container code  failed: ".toList ++ msg

/-- Model of `SetUpGuideAgent.generate_code` (`app/agent/SetUpguideAgent.py`):
same structure as `generate_tests`, but the fallback pattern captures only up to
the final dot, the file-set slot is `generated_readme_code`, and `current_step`
advances to `"generated_readme_code"`. -/
def generate_code (state : WorkflowState) (response : LLMReply) : WorkflowState :=
  match response with
  | .exn e => { state with errors := state.errors ++ [errExn e] }
  | .ok content =>
    let raw_content := pstrip content
    let tagMatches := findTagBlocks raw_content
    if tagMatches.isEmpty then
      let fallback_matches := findallFallback litDot raw_content
      if ¬ fallback_matches.isEmpty then
        let files := buildFiles fallback_matches
        { state with
            generated_readme_code := files
            generated_zip := some (mkZip files)
            current_step := "generated_readme_code".toList }
      else
        { state with
            errors := state.errors ++ [TestGeneratorAgent.errNoFiles (raw_content.take 1000)]
            generated_readme_code := []
            current_step := "generated_readme_code".toList }
    else
      let files := buildFiles tagMatches
      { state with
          generated_readme_code := files
          generated_zip := some (mkZip files)
          current_step := "generated_readme_code".toList }

end SetUpGuideAgent

namespace ProductionMonitorGenerationAgent

/-- Error entry of the exception handler (`f"configs code  failed: ..."`). -/
def errExn (msg : Str) : Str := "configs code  failed: ".toList ++ msg

/-- Model of `ProductionMonitorGenerationAgent.generate_code`
(`app/agent/monitor/ProductionMonitorAgent.py`): dot-literal fallback, slot
`generated_monitor_configs`, `current_step` advances to `"end"`. -/
def generate_code (state : WorkflowState) (response : LLMReply) : WorkflowState :=
  match response with
  | .exn e => { state with errors := state.errors ++ [errExn e] }
  | .ok content =>
    let raw_content := pstrip content
    let tagMatches := findTagBlocks raw_content
    if tagMatches.isEmpty then
      let fallback_matches := findallFallback litDot raw_content
      if ¬ fallback_matches.isEmpty then
        let files := buildFiles fallback_matches
        { state with
            generated_monitor_configs := files
            generated_zip := some (mkZip files)
            current_step := "end".toList }
      else
        { state with
            errors := state.errors ++ [TestGeneratorAgent.errNoFiles (raw_content.take 1000)]
            generated_monitor_configs := []
            current_step := "end".toList }
    else
      let files := buildFiles tagMatches
      { state with
          generated_monitor_configs := files
          generated_zip := some (mkZip files)
          current_step := "end".toList }

end ProductionMonitorGenerationAgent

namespace SwaggerAnalyzerAgent

/-- The `json.JSONDecodeError` text is not reproduced; only the fixed prefix of
the stage's error entry `f"Swagger analysis failed: {str(e)}"` matters here. -/
def errAnalyze (msg : Str) : Str := "Swagger analysis failed: ".toList ++ msg

/-- Stand-in for `str(e)` of the decode error raised by `json.loads`. -/
def jsonDecodeErrText : Str := "json decode error".toList

/-- Model of `SwaggerAnalyzerAgent.analyze` (`app/agent/req/SwaggerAnalyzerAgent.py`):
`json.loads(response.content)` into `metadata` and advance `current_step` to
`"user_stories"`; any exception (including a decode failure) is caught and
appended to `errors`. -/
def analyze (state : WorkflowState) (response : LLMReply) : WorkflowState :=
  match response with
  | .exn e => { state with errors := state.errors ++ [errAnalyze e] }
  | .ok content =>
    match json_loads content with
    | some v =>
      { state with metadata := v, current_step := "user_stories".toList }
    | none =>
      { state with errors := state.errors ++ [errAnalyze jsonDecodeErrText] }

end SwaggerAnalyzerAgent

/-! Well-formed tag-grammar blocks and their joining, as used by the grammar
completeness and duplicate-path claims. -/

/-- One well-formed tag-grammar block, following the prompt contract
`>>>FILE_PATH_START<<< path >>>FILE_PATH_END<<< >>>FILE_CONTENT_START<<<`,
newline, content, newline, `>>>FILE_CONTENT_END<<<`. -/
def mkBlock (p c : Str) : Str :=
  pathStartM ++ ' ' :: p ++ ' ' :: pathEndM ++ ' ' :: contentStartM
    ++ '\n' :: c ++ '\n' :: contentEndM

/-- Well-formedness of a (path, content) pair: the path is a non-empty
whitespace-free token not containing the path-end marker, and the content does
not contain a newline followed by the content-end marker (the grammar's "content
may include marker-like substrings only if they don't match the exact marker
tokens" condition). -/
def wfBlock (b : Str × Str) : Prop :=
  b.1 ≠ [] ∧ (∀ ch ∈ b.1, isPyWs ch = false) ∧
    ¬ pathEndM <:+: b.1 ∧ ¬ ('\n' :: contentEndM) <:+: b.2

instance : DecidablePred wfBlock := by
  intro b
  unfold wfBlock
  infer_instance

/-- Joining N blocks into one reply text, separated by newlines. -/
def joinBlocks : List (Str × Str) → Str
  | [] => []
  | [b] => mkBlock b.1 b.2
  | b :: bs => mkBlock b.1 b.2 ++ '\n' :: joinBlocks bs

/-! Helper lemmas about the scanners. -/

lemma isPrefixOf_self_app (l r : Str) : l.isPrefixOf (l ++ r) = true :=
  List.isPrefixOf_iff_prefix.mpr (List.prefix_append l r)

/-- A marker `M` cannot begin inside a shorter text `p` and straddle into what
follows: if the separating character does not occur in `M`'s tail and `M` is not
an infix of `p`, then `M` is not a prefix of `p ++ sep :: X`. -/
lemma marker_not_pfx {M p : Str} {sep : Char} {X : Str}
    (hp : p ≠ []) (hsep : sep ∉ M.drop 1) (hinf : ¬ M <:+: p) :
    ¬ M <+: (p ++ sep :: X) := by
  intro h
  rcases le_or_lt M.length p.length with hle | hlt
  · apply hinf
    apply List.IsPrefix.isInfix
    rw [List.prefix_iff_eq_take] at h ⊢
    rw [h, List.take_append_eq_append_take, Nat.sub_eq_zero_of_le hle]
    simp
  · have hM : M = p ++ sep :: (X.take (M.length - p.length - 1)) := by
      rw [List.prefix_iff_eq_take] at h
      conv_lhs => rw [h]
      rw [List.take_append_eq_append_take, List.take_of_length_le (Nat.le_of_lt hlt),
        List.take_cons (Nat.sub_pos_of_lt hlt)]
    apply hsep
    have hmem : sep ∈ M.drop p.length := by
      rw [hM, List.drop_left]
      exact List.mem_cons_self _ _
    have hdd : M.drop p.length = (M.drop 1).drop (p.length - 1) := by
      rw [List.drop_drop]
      congr 1
      have := List.length_pos.mpr hp
      omega
    rw [hdd] at hmem
    exact List.drop_subset _ _ hmem

lemma not_isPrefixOf_of_not_pfx {M t : Str} (h : ¬ M <+: t) :
    M.isPrefixOf t = false := by
  cases hb : M.isPrefixOf t with
  | false => rfl
  | true => exact absurd (List.isPrefixOf_iff_prefix.mp hb) h

/-- The content scanner finds exactly the first `newline + end marker`. -/
lemma matchContent_app {c : Str} (r : Str)
    (hc : ¬ ('\n' :: contentEndM) <:+: c) :
    matchContent (c ++ '\n' :: (contentEndM ++ r)) = some (c, r) := by
  induction c with
  | nil =>
    rw [List.nil_append, matchContent]
    rw [show ('\n' :: contentEndM).isPrefixOf ('\n' :: (contentEndM ++ r)) = true by
      simp [List.isPrefixOf, isPrefixOf_self_app]]
    simp [List.drop_left]
  | cons ch c ih =>
    have hc' : ¬ ('\n' :: contentEndM) <:+: c := fun hx => hc (List.infix_cons hx)
    have hnp : ¬ ('\n' :: contentEndM) <+: ((ch :: c) ++ '\n' :: (contentEndM ++ r)) :=
      marker_not_pfx (by simp) (by decide) hc
    rw [List.cons_append, matchContent,
      not_isPrefixOf_of_not_pfx (by rw [← List.cons_append]; exact hnp)]
    simp [ih hc']

lemma pathStartM_cons : pathStartM = '>' :: ">>FILE_PATH_START<<<".toList := rfl

lemma pathEndM_cons : pathEndM = '>' :: ">>FILE_PATH_END<<<".toList := rfl

lemma contentStartM_cons : contentStartM = '>' :: ">>FILE_CONTENT_START<<<".toList := rfl

/-- Whitespace skipping stops right away at a text beginning with `>`. -/
lemma dropWhile_ws_gt {m : Str} (r : Str) (hd : ∃ t, m = '>' :: t) :
    List.dropWhile isPyWs (m ++ r) = m ++ r := by
  obtain ⟨t, rfl⟩ := hd
  rw [List.cons_append, List.dropWhile_cons]
  simp [show isPyWs '>' = false from rfl]

/-- `\s*` then a `>`-headed marker succeeds on a single space followed by the
marker. -/
lemma wsThenTok_sp {m : Str} (r : Str) (hd : ∃ t, m = '>' :: t) :
    wsThenTok m (' ' :: (m ++ r)) = some r := by
  unfold wsThenTok
  rw [List.dropWhile_cons]
  simp only [show isPyWs ' ' = true from rfl, if_true]
  rw [dropWhile_ws_gt r hd, isPrefixOf_self_app]
  simp [List.drop_left]

/-- The path scanner captures exactly the whitespace-free token before
` >>>FILE_PATH_END<<<`. -/
lemma matchPathCore_app {p : Str} (r : Str)
    (hw : ∀ ch ∈ p, isPyWs ch = false) (hinf : ¬ pathEndM <:+: p) :
    matchPathCore (p ++ ' ' :: (pathEndM ++ r)) = some (p, r) := by
  induction p with
  | nil =>
    rw [List.nil_append, matchPathCore, wsThenTok_sp r ⟨_, pathEndM_cons⟩]
  | cons ch p ih =>
    have hw' : ∀ c ∈ p, isPyWs c = false := fun c hcm => hw c (List.mem_cons_of_mem _ hcm)
    have hinf' : ¬ pathEndM <:+: p := fun hx => hinf (List.infix_cons hx)
    have hchw : isPyWs ch = false := hw ch (List.mem_cons_self _ _)
    have hnp : ¬ pathEndM <+: ((ch :: p) ++ ' ' :: (pathEndM ++ r)) :=
      marker_not_pfx (by simp) (by decide) hinf
    have h1 : wsThenTok pathEndM (ch :: (p ++ ' ' :: (pathEndM ++ r))) = none := by
      unfold wsThenTok
      rw [List.dropWhile_cons]
      simp only [hchw, Bool.false_eq_true, if_false]
      rw [not_isPrefixOf_of_not_pfx (by rw [← List.cons_append]; exact hnp)]
      simp
    have hch : ch ≠ '\n' := by
      intro e
      rw [e] at hchw
      exact absurd hchw (by decide)
    rw [List.cons_append, matchPathCore, h1]
    simp [hch, ih hw' hinf']

/-- A whole well-formed block at the head of the text matches the tag pattern,
capturing its path and content and leaving exactly the trailing text. -/
lemma tryMatchTag_mkBlock {p c : Str} (r : Str) (hp : p ≠ [])
    (hw : ∀ ch ∈ p, isPyWs ch = false) (hpi : ¬ pathEndM <:+: p)
    (hci : ¬ ('\n' :: contentEndM) <:+: c) :
    tryMatchTag (mkBlock p c ++ r) = some (p, c, r) := by
  have hsplit : mkBlock p c ++ r
      = pathStartM ++ (' ' :: (p ++ ' ' :: (pathEndM
          ++ (' ' :: (contentStartM ++ '\n' :: (c ++ '\n' :: (contentEndM ++ r))))))) := by
    simp [mkBlock]
  rw [hsplit]
  unfold tryMatchTag
  rw [isPrefixOf_self_app]
  simp only [if_true]
  rw [List.drop_left]
  have hdw : List.dropWhile isPyWs
      (' ' :: (p ++ ' ' :: (pathEndM
        ++ (' ' :: (contentStartM ++ '\n' :: (c ++ '\n' :: (contentEndM ++ r)))))))
      = p ++ ' ' :: (pathEndM
        ++ (' ' :: (contentStartM ++ '\n' :: (c ++ '\n' :: (contentEndM ++ r))))) := by
    obtain ⟨hp0, p', rfl⟩ : ∃ hp0 p', p = hp0 :: p' := by
      cases p with
      | nil => exact absurd rfl hp
      | cons a b => exact ⟨a, b, rfl⟩
    rw [List.dropWhile_cons]
    simp only [show isPyWs ' ' = true from rfl, if_true]
    rw [List.cons_append, List.dropWhile_cons]
    simp [hw _ (List.mem_cons_self _ _)]
  rw [show matchPath (' ' :: (p ++ ' ' :: (pathEndM
        ++ (' ' :: (contentStartM ++ '\n' :: (c ++ '\n' :: (contentEndM ++ r)))))))
      = some (p, ' ' :: (contentStartM ++ '\n' :: (c ++ '\n' :: (contentEndM ++ r)))) by
    unfold matchPath
    rw [hdw]
    exact matchPathCore_app _ hw hpi]
  simp [wsThenTok_sp _ ⟨_, contentStartM_cons⟩, matchContent_app r hci]

/-! Length bounds of the scanners, for fuel adequacy. -/

lemma dropWhile_len (p : Char → Bool) (t : Str) :
    (t.dropWhile p).length ≤ t.length := by
  induction t with
  | nil => simp
  | cons a t ih =>
    rw [List.dropWhile_cons]
    split
    · exact Nat.le_trans ih (by simp)
    · simp

lemma wsThenTok_len {m t r : Str} (h : wsThenTok m t = some r) :
    r.length ≤ t.length := by
  simp only [wsThenTok] at h
  split at h
  · simp only [Option.some.injEq] at h
    subst h
    calc ((t.dropWhile isPyWs).drop m.length).length
        ≤ (t.dropWhile isPyWs).length := by simp [List.length_drop]
      _ ≤ t.length := dropWhile_len _ _
  · cases h

lemma matchPathCore_len {t g r : Str} (h : matchPathCore t = some (g, r)) :
    r.length ≤ t.length := by
  induction t generalizing g r with
  | nil =>
    rw [matchPathCore] at h
    cases hw : wsThenTok pathEndM [] with
    | none => rw [hw] at h; cases h
    | some rest =>
      rw [hw] at h
      simp only [Option.some.injEq, Prod.mk.injEq] at h
      obtain ⟨h1, h2⟩ := h
      subst h2
      simpa using wsThenTok_len hw
  | cons ch t ih =>
    rw [matchPathCore] at h
    cases hw : wsThenTok pathEndM (ch :: t) with
    | some rest =>
      rw [hw] at h
      simp only [Option.some.injEq, Prod.mk.injEq] at h
      obtain ⟨h1, h2⟩ := h
      subst h2
      exact wsThenTok_len hw
    | none =>
      rw [hw] at h
      by_cases hch : ch = '\n'
      · rw [if_pos hch] at h; cases h
      · rw [if_neg hch] at h
        cases hmc : matchPathCore t with
        | none => rw [hmc] at h; cases h
        | some pr =>
          rw [hmc] at h
          simp only [Option.map_some', Option.some.injEq, Prod.mk.injEq] at h
          obtain ⟨h1, h2⟩ := h
          subst h2
          have := ih (g := pr.1) (r := pr.2) (by rw [hmc])
          simp only [List.length_cons]
          omega

lemma matchContent_len {t g r : Str} (h : matchContent t = some (g, r)) :
    r.length < t.length := by
  induction t generalizing g r with
  | nil => cases h
  | cons ch t ih =>
    rw [matchContent] at h
    split at h
    · simp only [Option.some.injEq, Prod.mk.injEq] at h
      obtain ⟨h1, h2⟩ := h
      subst h2
      have : (t.drop contentEndM.length).length ≤ t.length := by simp [List.length_drop]
      simp only [List.length_cons]
      omega
    · cases hmc : matchContent t with
      | none => rw [hmc] at h; cases h
      | some pr =>
        rw [hmc] at h
        simp only [Option.map_some', Option.some.injEq, Prod.mk.injEq] at h
        obtain ⟨h1, h2⟩ := h
        subst h2
        have := ih (g := pr.1) (r := pr.2) (by rw [hmc])
        simp only [List.length_cons]
        omega

lemma tryMatchTag_len {t : Str} {pr : Str × Str × Str}
    (h : tryMatchTag t = some pr) : pr.2.2.length < t.length := by
  unfold tryMatchTag at h
  split at h
  · rename_i hps
    have hlen : pathStartM.length ≤ t.length :=
      (List.isPrefixOf_iff_prefix.mp hps).length_le
    cases hmp : matchPath (t.drop pathStartM.length) with
    | none => rw [hmp] at h; cases h
    | some pr1 =>
      obtain ⟨p1, r1⟩ := pr1
      rw [hmp] at h
      simp only at h
      have h1 : r1.length ≤ t.length - pathStartM.length := by
        have := matchPathCore_len (t := (t.drop pathStartM.length).dropWhile isPyWs)
          (g := p1) (r := r1) (by rw [← hmp]; rfl)
        have h2 := dropWhile_len isPyWs (t.drop pathStartM.length)
        simp only [List.length_drop] at *
        omega
      cases hwt : wsThenTok contentStartM r1 with
      | none => rw [hwt] at h; cases h
      | some r2 =>
        rw [hwt] at h
        have h2 : r2.length ≤ r1.length := wsThenTok_len hwt
        cases r2 with
        | nil => simp at h
        | cons c0 r3 =>
          simp only at h
          by_cases hc0 : c0 = '\n'
          · rw [if_pos hc0] at h
            cases hmc : matchContent r3 with
            | none => rw [hmc] at h; cases h
            | some pr4 =>
              obtain ⟨c4, r4⟩ := pr4
              rw [hmc] at h
              simp only [Option.some.injEq] at h
              subst h
              have h3 := matchContent_len (g := c4) (r := r4) (by rw [hmc])
              have hpsl : pathStartM.length = 21 := rfl
              rw [hpsl] at h1 hlen
              simp only [List.length_cons] at h2
              show r4.length < t.length
              omega
          · rw [if_neg hc0] at h
            cases h
  · cases h

/-- The fuel of `findTagBlocksF` is irrelevant once it covers the input length
(each step consumes at least one character). -/
lemma findTagBlocksF_irrel (n : Nat) : ∀ f1 f2 t, t.length ≤ f1 → t.length ≤ f2 →
    t.length ≤ n → findTagBlocksF f1 t = findTagBlocksF f2 t := by
  induction n with
  | zero =>
    intro f1 f2 t h1 h2 h0
    have ht : t = [] := List.length_eq_zero.mp (Nat.le_zero.mp h0)
    subst ht
    cases f1 <;> cases f2 <;> rfl
  | succ n ih =>
    intro f1 f2 t h1 h2 h0
    cases t with
    | nil => cases f1 <;> cases f2 <;> rfl
    | cons ch t =>
      simp only [List.length_cons] at h1 h2 h0
      cases f1 with
      | zero => omega
      | succ f1 =>
        cases f2 with
        | zero => omega
        | succ f2 =>
          simp only [findTagBlocksF]
          cases heq : tryMatchTag (ch :: t) with
          | some pr =>
            have hlt := tryMatchTag_len heq
            simp only [List.length_cons] at hlt
            dsimp only
            rw [ih f1 f2 pr.2.2 (by omega) (by omega) (by omega)]
          | none =>
            dsimp only
            rw [ih f1 f2 t (by omega) (by omega) (by omega)]

/-- Unfolding equation of the scan at a successful match position. -/
lemma findTagBlocks_pos {ch : Char} {t : Str} {pr : Str × Str × Str}
    (h : tryMatchTag (ch :: t) = some pr) :
    findTagBlocks (ch :: t) = (pr.1, pr.2.1) :: findTagBlocks pr.2.2 := by
  unfold findTagBlocks
  simp only [List.length_cons, findTagBlocksF, h]
  have hlt := tryMatchTag_len h
  simp only [List.length_cons] at hlt
  rw [findTagBlocksF_irrel t.length t.length pr.2.2.length pr.2.2 (by omega) le_rfl
    (by omega)]

/-- Unfolding equation of the scan at a non-matching position. -/
lemma findTagBlocks_neg {ch : Char} {t : Str}
    (h : tryMatchTag (ch :: t) = none) :
    findTagBlocks (ch :: t) = findTagBlocks t := by
  unfold findTagBlocks
  simp only [List.length_cons, findTagBlocksF, h]

/-- The scan skips the newline separator between joined blocks. -/
lemma tryMatchTag_nl (x : Str) : tryMatchTag ('\n' :: x) = none := by
  unfold tryMatchTag
  rw [not_isPrefixOf_of_not_pfx (by
    rw [pathStartM_cons]
    intro hpf
    have := List.prefix_iff_eq_take.mp hpf
    simp [List.take_cons] at this)]
  simp

/-- A well-formed block at the head of the text contributes exactly one match
and the scan continues right after it. -/
lemma findTagBlocks_block {p c : Str} (r : Str) (hwf : wfBlock (p, c)) :
    findTagBlocks (mkBlock p c ++ r) = (p, c) :: findTagBlocks r := by
  obtain ⟨hp, hw, hpi, hci⟩ := hwf
  have htm : tryMatchTag (mkBlock p c ++ r) = some (p, c, r) :=
    tryMatchTag_mkBlock r hp hw hpi hci
  cases hmb : mkBlock p c ++ r with
  | nil =>
    have hlen := congrArg List.length hmb
    simp [mkBlock] at hlen
  | cons ch t' =>
    rw [hmb] at htm
    rw [findTagBlocks_pos htm]

/-- `re.findall` of the tag pattern recovers exactly the blocks of a joined
well-formed reply. -/
lemma findTag_join : ∀ bs : List (Str × Str), (∀ b ∈ bs, wfBlock b) →
    findTagBlocks (joinBlocks bs) = bs := by
  intro bs
  induction bs with
  | nil => intro _; rfl
  | cons b bs ih =>
    intro h
    have hwb : wfBlock b := h b (List.mem_cons_self _ _)
    have hrest : ∀ x ∈ bs, wfBlock x := fun x hx => h x (List.mem_cons_of_mem _ hx)
    cases bs with
    | nil =>
      have hj : joinBlocks [b] = mkBlock b.1 b.2 ++ [] := by simp [joinBlocks]
      rw [hj, findTagBlocks_block [] hwb]
      rfl
    | cons b2 bs2 =>
      have hj : joinBlocks (b :: b2 :: bs2)
          = mkBlock b.1 b.2 ++ '\n' :: joinBlocks (b2 :: bs2) := rfl
      rw [hj, findTagBlocks_block _ hwb, findTagBlocks_neg (tryMatchTag_nl _)]
      rw [ih hrest]

/-! Properties of the dict building loop. -/

lemma dropWhile_all_false {l : Str} (h : ∀ c ∈ l, isPyWs c = false) :
    l.dropWhile isPyWs = l := by
  cases l with
  | nil => rfl
  | cons a l =>
    rw [List.dropWhile_cons]
    simp [h a (List.mem_cons_self _ _)]

/-- Stripping a whitespace-free token is the identity. -/
lemma pstrip_nows {p : Str} (h : ∀ ch ∈ p, isPyWs ch = false) : pstrip p = p := by
  unfold pstrip
  rw [dropWhile_all_false h,
    dropWhile_all_false (fun c hc => h c (List.mem_reverse.mp hc)),
    List.reverse_reverse]

lemma dictInsert_fresh {α : Type} (d : List (Str × α)) (k : Str) (v : α)
    (h : ∀ q ∈ d, q.1 ≠ k) : dictInsert d k v = d ++ [(k, v)] := by
  unfold dictInsert
  have hany : d.any (fun q => q.1 == k) = false := by
    rw [List.any_eq_false]
    intro q hq
    simpa using h q hq
  rw [hany]
  simp

lemma foldl_dictInsert (ms : List (Str × Str)) :
    ∀ d : List (Str × Str),
      (∀ m ∈ ms, ∀ q ∈ d, q.1 ≠ pstrip m.1) →
      (ms.map (fun m => pstrip m.1)).Nodup →
      ms.foldl (fun acc m => dictInsert acc (pstrip m.1) (pstrip m.2)) d
        = d ++ ms.map (fun m => (pstrip m.1, pstrip m.2)) := by
  induction ms with
  | nil =>
    intro d _ _
    simp
  | cons m ms ih =>
    intro d hfresh hnd
    rw [List.foldl_cons, dictInsert_fresh d _ _ (hfresh m (List.mem_cons_self _ _))]
    rw [List.map_cons, List.nodup_cons] at hnd
    rw [ih (d ++ [(pstrip m.1, pstrip m.2)]) ?fresh hnd.2]
    · simp
    case fresh =>
      intro m' hm' q hq
      rcases List.mem_append.mp hq with hq1 | hq2
      · exact hfresh m' (List.mem_cons_of_mem _ hm') q hq1
      · have hqe : q = (pstrip m.1, pstrip m.2) := List.mem_singleton.mp hq2
        subst hqe
        intro e
        exact hnd.1 (by
          rw [show pstrip m.1 = pstrip m'.1 from e]
          exact List.mem_map_of_mem (fun x => pstrip x.1) hm')

/-- The `files` dict of a reply whose stripped paths are pairwise distinct is
the match list itself, stripped entrywise. -/
lemma buildFiles_eq (ms : List (Str × Str))
    (hnd : (ms.map (fun m => pstrip m.1)).Nodup) :
    buildFiles ms = ms.map (fun m => (pstrip m.1, pstrip m.2)) := by
  unfold buildFiles
  simpa using foldl_dictInsert ms [] (by simp) hnd


/-- The initial `WorkflowState` built by `run_workflow` (unset optional slots
modelled as empty / `none`; the missing `generated_zip` key is `none`). -/
def initialState (sw : Json) : WorkflowState where
  swagger_content := sw
  user_stories := []
  generated_code := []
  unit_tests := []
  current_step := "analyze_swagger".toList
  errors := []
  metadata := .obj []
  generated_container_code := []
  generated_readme_code := []
  generated_monitor_configs := []
  generated_zip := none

/-! Properties of the fallback code-block scrapers. -/

lemma takeWhile_word_dot {u r : Str} (hu : ∀ c ∈ u, isWordChar c = true) :
    (u ++ '.' :: r).takeWhile isWordChar = u := by
  induction u with
  | nil => simp [List.takeWhile_cons, show isWordChar '.' = false from rfl]
  | cons a u ih =>
    rw [List.cons_append, List.takeWhile_cons]
    simp [hu a (List.mem_cons_self _ _),
      ih (fun c hc => hu c (List.mem_cons_of_mem _ hc))]

lemma findFence_app {m r : Str} (hm : ∀ c ∈ m, c ≠ btChar) :
    findFence (m ++ (fenceM ++ r)) = some r := by
  induction m with
  | nil =>
    rw [List.nil_append]
    have : fenceM ++ r = btChar :: (btChar :: btChar :: r) := rfl
    rw [this, findFence, ← this, isPrefixOf_self_app]
    simp [List.drop_left]
  | cons a m ih =>
    rw [List.cons_append, findFence]
    have hne : fenceM.isPrefixOf (a :: (m ++ (fenceM ++ r))) = false := by
      have ha : a ≠ btChar := hm a (List.mem_cons_self _ _)
      simp [fenceM, List.isPrefixOf]
      intro e
      exact absurd e.symm ha
    rw [hne]
    simp [ih (fun c hc => hm c (List.mem_cons_of_mem _ hc))]

lemma uptoFence_app {b r : Str} (hb : ∀ c ∈ b, c ≠ btChar) :
    uptoFence (b ++ (fenceM ++ r)) = some (b, r) := by
  induction b with
  | nil =>
    rw [List.nil_append]
    have : fenceM ++ r = btChar :: (btChar :: btChar :: r) := rfl
    rw [this, uptoFence, ← this, isPrefixOf_self_app]
    simp [List.drop_left]
  | cons a b ih =>
    rw [List.cons_append, uptoFence]
    have hne : fenceM.isPrefixOf (a :: (b ++ (fenceM ++ r))) = false := by
      have ha : a ≠ btChar := hb a (List.mem_cons_self _ _)
      simp [fenceM, List.isPrefixOf]
      intro e
      exact absurd e.symm ha
    rw [hne]
    simp [ih (fun c hc => hb c (List.mem_cons_of_mem _ hc))]

/-- A fallback match anchored at a word run followed by the dot-headed literal,
free text, and a fenced block, captures (run ++ literal, fence body). -/
lemma tryFallbackAt_mk {lt u mid body rest : Str}
    (hu : ∀ c ∈ u, isWordChar c = true) (hune : u ≠ [])
    (hmid : ∀ c ∈ mid, c ≠ btChar) (hbody : ∀ c ∈ body, c ≠ btChar) :
    tryFallbackAt ('.' :: lt)
        (u ++ '.' :: (lt ++ (mid ++ (fenceM ++ (body ++ (fenceM ++ rest))))))
      = some (u ++ '.' :: lt, body, rest) := by
  simp only [tryFallbackAt]
  rw [takeWhile_word_dot hu]
  have hue : u.isEmpty = false := by
    cases u with
    | nil => exact absurd rfl hune
    | cons a u => rfl
  rw [hue]
  simp only [Bool.false_eq_true, if_false]
  rw [List.drop_left]
  have hpf : ('.' :: lt).isPrefixOf
      ('.' :: (lt ++ (mid ++ (fenceM ++ (body ++ (fenceM ++ rest)))))) = true := by
    simp [List.isPrefixOf, isPrefixOf_self_app]
  rw [hpf]
  simp only [if_true]
  have hshape : u ++ '.' :: (lt ++ (mid ++ (fenceM ++ (body ++ (fenceM ++ rest)))))
      = (u ++ '.' :: lt) ++ (mid ++ (fenceM ++ (body ++ (fenceM ++ rest)))) := by
    simp
  have hlen : u.length + ('.' :: lt).length = (u ++ '.' :: lt).length := by
    simp
  rw [hshape, hlen, List.drop_left, findFence_app hmid]
  dsimp only
  rw [uptoFence_app hbody]

lemma findFence_len {t r : Str} (h : findFence t = some r) : r.length < t.length := by
  induction t with
  | nil => cases h
  | cons ch t ih =>
    rw [findFence] at h
    split at h
    · simp only [Option.some.injEq] at h
      subst h
      simp only [List.length_drop, List.length_cons, show fenceM.length = 3 from rfl]
      omega
    · have := ih h
      simp only [List.length_cons]
      omega

lemma uptoFence_len {t : Str} {pr : Str × Str} (h : uptoFence t = some pr) :
    pr.2.length < t.length := by
  induction t generalizing pr with
  | nil => cases h
  | cons ch t ih =>
    rw [uptoFence] at h
    split at h
    · simp only [Option.some.injEq] at h
      subst h
      simp only [List.length_drop, List.length_cons, show fenceM.length = 3 from rfl]
      omega
    · cases hup : uptoFence t with
      | none => rw [hup] at h; cases h
      | some pr2 =>
        rw [hup] at h
        simp only [Option.map_some', Option.some.injEq] at h
        subst h
        have := @ih pr2 hup
        simp only [List.length_cons]
        omega

lemma tryFallbackAt_len {lit t : Str} {pr : Str × Str × Str}
    (h : tryFallbackAt lit t = some pr) : pr.2.2.length < t.length := by
  simp only [tryFallbackAt] at h
  split at h
  · cases h
  · split at h
    · cases hf : findFence (t.drop ((t.takeWhile isWordChar).length + lit.length)) with
      | none => rw [hf] at h; cases h
      | some t2 =>
        rw [hf] at h
        dsimp only at h
        have h1 := findFence_len hf
        cases hup : uptoFence t2 with
        | none => rw [hup] at h; cases h
        | some pr2 =>
          obtain ⟨body, rest⟩ := pr2
          rw [hup] at h
          simp only [Option.some.injEq] at h
          subst h
          have h2 := @uptoFence_len t2 (body, rest) hup
          have h3 : (t.drop ((t.takeWhile isWordChar).length + lit.length)).length
              ≤ t.length := by simp [List.length_drop]
          simp only at h2
          show rest.length < t.length
          omega
    · cases h

lemma findallFallbackF_irrel (lit : Str) (n : Nat) :
    ∀ f1 f2 t, t.length ≤ f1 → t.length ≤ f2 → t.length ≤ n →
      findallFallbackF lit f1 t = findallFallbackF lit f2 t := by
  induction n with
  | zero =>
    intro f1 f2 t h1 h2 h0
    have ht : t = [] := List.length_eq_zero.mp (Nat.le_zero.mp h0)
    subst ht
    cases f1 <;> cases f2 <;> rfl
  | succ n ih =>
    intro f1 f2 t h1 h2 h0
    cases t with
    | nil => cases f1 <;> cases f2 <;> rfl
    | cons ch t =>
      simp only [List.length_cons] at h1 h2 h0
      cases f1 with
      | zero => omega
      | succ f1 =>
        cases f2 with
        | zero => omega
        | succ f2 =>
          simp only [findallFallbackF]
          cases heq : tryFallbackAt lit (ch :: t) with
          | some pr =>
            have hlt := tryFallbackAt_len heq
            simp only [List.length_cons] at hlt
            dsimp only
            rw [ih f1 f2 pr.2.2 (by omega) (by omega) (by omega)]
          | none =>
            dsimp only
            rw [ih f1 f2 t (by omega) (by omega) (by omega)]

lemma findallFallback_pos {lit : Str} {ch : Char} {t : Str} {pr : Str × Str × Str}
    (h : tryFallbackAt lit (ch :: t) = some pr) :
    findallFallback lit (ch :: t) = (pr.1, pr.2.1) :: findallFallback lit pr.2.2 := by
  unfold findallFallback
  simp only [List.length_cons, findallFallbackF, h]
  have hlt := tryFallbackAt_len h
  simp only [List.length_cons] at hlt
  rw [findallFallbackF_irrel lit t.length t.length pr.2.2.length pr.2.2 (by omega) le_rfl
    (by omega)]

/-- Characters of the fallback path class are not whitespace. -/
lemma word_not_ws {c : Char} (h : isWordChar c = true) : isPyWs c = false := by
  cases hw : isPyWs c
  · rfl
  · exfalso
    simp only [isPyWs, Bool.or_eq_true, decide_eq_true_eq] at hw
    rcases hw with ((((h1 | h1) | h1) | h1) | h1) | h1 <;> subst h1 <;>
      exact absurd h (by decide)

/-! Properties of the two multiline fence-removal passes. -/

/-- A backtick-headed token is not a prefix of a text headed by another
character. -/
lemma isPrefixOf_bt_head {m : Str} {a : Char} (t : Str) (hm : ∃ m', m = btChar :: m')
    (ha : a ≠ btChar) : m.isPrefixOf (a :: t) = false := by
  obtain ⟨m', rfl⟩ := hm
  simp [List.isPrefixOf]
  intro e
  exact absurd e.symm ha

lemma sub1GoF_irrel (n : Nat) : ∀ f1 f2 flag t, t.length ≤ f1 → t.length ≤ f2 →
    t.length ≤ n → sub1GoF f1 flag t = sub1GoF f2 flag t := by
  induction n with
  | zero =>
    intro f1 f2 flag t h1 h2 h0
    have ht : t = [] := List.length_eq_zero.mp (Nat.le_zero.mp h0)
    subst ht
    cases f1 <;> cases f2 <;> rfl
  | succ n ih =>
    intro f1 f2 flag t h1 h2 h0
    cases t with
    | nil => cases f1 <;> cases f2 <;> rfl
    | cons ch t =>
      simp only [List.length_cons] at h1 h2 h0
      cases f1 with
      | zero => omega
      | succ f1 =>
        cases f2 with
        | zero => omega
        | succ f2 =>
          have hd7 : ((ch :: t).drop fenceJsonM.length).length ≤ t.length := by
            simp only [List.length_drop, List.length_cons,
              show fenceJsonM.length = 7 from rfl]
            omega
          have hd3 : ((ch :: t).drop fenceM.length).length ≤ t.length := by
            simp only [List.length_drop, List.length_cons,
              show fenceM.length = 3 from rfl]
            omega
          simp only [sub1GoF]
          split
          · exact ih f1 f2 false _ (by omega) (by omega) (by omega)
          · split
            · exact ih f1 f2 false _ (by omega) (by omega) (by omega)
            · rw [ih f1 f2 (ch == '\n') t (by omega) (by omega) (by omega)]

/-- One pass of the first substitution with its natural fuel. -/
def sub1Run (flag : Bool) (t : Str) : Str := sub1GoF t.length flag t

lemma sub1_eq_run (t : Str) : sub1 t = sub1Run true t := rfl

lemma sub1Run_cons_any (flag : Bool) (ch : Char) (t : Str)
    (h1 : fenceJsonM.isPrefixOf (ch :: t) = false)
    (h2 : fenceM.isPrefixOf (ch :: t) = false) :
    sub1Run flag (ch :: t) = ch :: sub1Run (ch == '\n') t := by
  unfold sub1Run
  simp only [List.length_cons, sub1GoF, h1, h2, Bool.and_false, Bool.false_eq_true,
    if_false]

lemma sub1Run_fencejson (X : Str) :
    sub1Run true (fenceJsonM ++ X) = sub1Run false X := by
  unfold sub1Run
  have hpre : fenceJsonM.isPrefixOf (fenceJsonM ++ X) = true := isPrefixOf_self_app _ _
  have hshape : fenceJsonM ++ X
      = btChar :: (btChar :: btChar :: 'j' :: 's' :: 'o' :: 'n' :: X) := rfl
  rw [hshape] at hpre
  rw [hshape]
  simp only [List.length_cons, sub1GoF, hpre, Bool.and_true, Bool.true_and, if_true]
  apply sub1GoF_irrel X.length
  · simp only [List.length_drop, List.length_cons, show fenceJsonM.length = 7 from rfl]
    omega
  · exact le_rfl
  · exact le_rfl

lemma sub1Run_fence (X : Str)
    (hj : fenceJsonM.isPrefixOf (fenceM ++ X) = false) :
    sub1Run true (fenceM ++ X) = sub1Run false X := by
  unfold sub1Run
  have hpre : fenceM.isPrefixOf (fenceM ++ X) = true := isPrefixOf_self_app _ _
  have hshape : fenceM ++ X = btChar :: (btChar :: btChar :: X) := rfl
  rw [hshape] at hpre hj
  rw [hshape]
  simp only [List.length_cons, sub1GoF, hpre, hj, Bool.and_true, Bool.true_and,
    Bool.and_false, Bool.false_eq_true, if_false, if_true]
  apply sub1GoF_irrel X.length
  · simp only [List.length_drop, List.length_cons, show fenceM.length = 3 from rfl]
    omega
  · exact le_rfl
  · exact le_rfl

/-- The line-start flag after scanning `u` starting from `flag`. -/
def lastFlag (flag : Bool) (u : Str) : Bool :=
  match u.getLast? with
  | none => flag
  | some c => c == '\n'

lemma lastFlag_cons (flag : Bool) (a : Char) (u : Str) :
    lastFlag flag (a :: u) = lastFlag (a == '\n') u := by
  cases u with
  | nil => rfl
  | cons b u =>
    unfold lastFlag
    rw [List.getLast?_cons_cons]
    cases h : (b :: u).getLast? with
    | none => simp at h
    | some c => rfl

/-- The first pass copies a backtick-free segment unchanged, threading the
line-start flag. -/
lemma sub1Run_app_nobt (u : Str) (r : Str) : ∀ flag, (∀ c ∈ u, c ≠ btChar) →
    sub1Run flag (u ++ r) = u ++ sub1Run (lastFlag flag u) r := by
  induction u with
  | nil =>
    intro flag _
    simp [lastFlag]
  | cons a u ih =>
    intro flag hu
    have ha : a ≠ btChar := hu a (List.mem_cons_self _ _)
    have h1 : fenceJsonM.isPrefixOf (a :: (u ++ r)) = false :=
      isPrefixOf_bt_head _ ⟨_, rfl⟩ ha
    have h2 : fenceM.isPrefixOf (a :: (u ++ r)) = false :=
      isPrefixOf_bt_head _ ⟨_, rfl⟩ ha
    rw [List.cons_append, sub1Run_cons_any flag a (u ++ r) h1 h2,
      ih (a == '\n') (fun c hc => hu c (List.mem_cons_of_mem _ hc)), lastFlag_cons]
    rfl

/-- With the flag off, the first pass copies a newline-free segment unchanged
(no position in it is a line start). -/
lemma sub1Run_app_nonl (w : Str) (r : Str) (hw : ∀ c ∈ w, c ≠ '\n') :
    sub1Run false (w ++ r) = w ++ sub1Run false r := by
  induction w with
  | nil => simp
  | cons a w ih =>
    have ha : a ≠ '\n' := hw a (List.mem_cons_self _ _)
    have hstep : sub1Run false (a :: (w ++ r)) = a :: sub1Run (a == '\n') (w ++ r) := by
      unfold sub1Run
      simp [sub1GoF]
    rw [List.cons_append, hstep, show (a == '\n') = false by simp [ha],
      ih (fun c hc => hw c (List.mem_cons_of_mem _ hc))]
    exact (List.cons_append a w (sub1Run false r)).symm

lemma sub1Run_id_nobt (v : Str) (flag : Bool) (hv : ∀ c ∈ v, c ≠ btChar) :
    sub1Run flag v = v := by
  have h := sub1Run_app_nobt v [] flag hv
  rw [List.append_nil] at h
  rw [h, show sub1Run (lastFlag flag v) [] = [] from rfl, List.append_nil]

lemma sub2GoF_irrel (n : Nat) : ∀ f1 f2 t, t.length ≤ f1 → t.length ≤ f2 →
    t.length ≤ n → sub2GoF f1 t = sub2GoF f2 t := by
  induction n with
  | zero =>
    intro f1 f2 t h1 h2 h0
    have ht : t = [] := List.length_eq_zero.mp (Nat.le_zero.mp h0)
    subst ht
    cases f1 <;> cases f2 <;> rfl
  | succ n ih =>
    intro f1 f2 t h1 h2 h0
    cases t with
    | nil => cases f1 <;> cases f2 <;> rfl
    | cons ch t =>
      simp only [List.length_cons] at h1 h2 h0
      cases f1 with
      | zero => omega
      | succ f1 =>
        cases f2 with
        | zero => omega
        | succ f2 =>
          have hd3 : ((ch :: t).drop fenceM.length).length ≤ t.length := by
            simp only [List.length_drop, List.length_cons,
              show fenceM.length = 3 from rfl]
            omega
          simp only [sub2GoF]
          split
          · exact ih f1 f2 _ (by omega) (by omega) (by omega)
          · rw [ih f1 f2 t (by omega) (by omega) (by omega)]

lemma sub2_cons_char (ch : Char) (t : Str) (hch : ch ≠ btChar) :
    sub2 (ch :: t) = ch :: sub2 t := by
  unfold sub2
  have h2 : fenceM.isPrefixOf (ch :: t) = false :=
    isPrefixOf_bt_head _ ⟨_, rfl⟩ hch
  simp only [List.length_cons, sub2GoF, h2, Bool.false_and, Bool.false_eq_true, if_false]

lemma sub2_app_nobt (w r : Str) (hw : ∀ c ∈ w, c ≠ btChar) :
    sub2 (w ++ r) = w ++ sub2 r := by
  induction w with
  | nil => simp
  | cons a w ih =>
    rw [List.cons_append, sub2_cons_char a (w ++ r) (hw a (List.mem_cons_self _ _)),
      ih (fun c hc => hw c (List.mem_cons_of_mem _ hc))]
    exact (List.cons_append a w (sub2 r)).symm

lemma sub2_id_nobt (v : Str) (hv : ∀ c ∈ v, c ≠ btChar) : sub2 v = v := by
  have h := sub2_app_nobt v [] hv
  rw [List.append_nil] at h
  rw [h, show sub2 [] = [] from rfl, List.append_nil]

/-- The second pass removes a fence immediately followed by a newline and
resumes at the newline. -/
lemma sub2_fence_nl (r : Str) : sub2 (fenceM ++ ('\n' :: r)) = sub2 ('\n' :: r) := by
  unfold sub2
  have hshape : fenceM ++ ('\n' :: r) = btChar :: (btChar :: btChar :: '\n' :: r) := rfl
  rw [hshape]
  have hcond : (fenceM.isPrefixOf (btChar :: (btChar :: btChar :: '\n' :: r))
      && (((btChar :: (btChar :: btChar :: '\n' :: r)).drop fenceM.length).isEmpty
          || ((btChar :: (btChar :: btChar :: '\n' :: r)).drop fenceM.length).head?
              == some '\n')) = true := by
    rw [show fenceM.isPrefixOf (btChar :: (btChar :: btChar :: '\n' :: r)) = true from
      isPrefixOf_self_app fenceM ('\n' :: r)]
    rfl
  simp only [List.length_cons, sub2GoF]
  rw [if_pos hcond]
  split
  · apply sub2GoF_irrel (('\n' :: r).drop fenceM.length).length
    · simp only [List.length_drop, List.length_cons, show fenceM.length = 3 from rfl]
      omega
    · simp only [List.length_drop, List.length_cons, show fenceM.length = 3 from rfl]
      omega
    · exact le_rfl
  · rw [sub2GoF_irrel r.length (r.length + 1 + 1) r.length r (by omega) le_rfl le_rfl]

lemma fenceJsonM_eq :
    fenceJsonM = btChar :: btChar :: btChar :: 'j' :: 's' :: 'o' :: 'n' :: [] := rfl

lemma getLast?_app_ne {l r : Str} (hr : r ≠ []) : (l ++ r).getLast? = r.getLast? := by
  rw [List.getLast?_append]
  cases h : r.getLast? with
  | none => exact absurd (List.getLast?_eq_none_iff.mp h) hr
  | some c => rfl

lemma lastFlag_true_of_last {u : Str} (hu0 : u ≠ [])
    (hul : ∀ c, u.getLast? = some c → isPyWs c = false) : lastFlag true u = false := by
  unfold lastFlag
  cases h : u.getLast? with
  | none => exact absurd (List.getLast?_eq_none_iff.mp h) hu0
  | some c =>
    have hcw := hul c h
    have : c ≠ '\n' := by
      intro e
      rw [e] at hcw
      exact absurd hcw (by decide)
    simp [this]

/-! Characterization of `pstrip` on already-stripped text. -/

lemma dropWhile_head_false {t : Str}
    (h : ∀ c, t.head? = some c → isPyWs c = false) :
    t.dropWhile isPyWs = t := by
  cases t with
  | nil => rfl
  | cons a t =>
    rw [List.dropWhile_cons, h a rfl]
    simp

lemma pstrip_id {t : Str} (hh : ∀ c, t.head? = some c → isPyWs c = false)
    (hl : ∀ c, t.getLast? = some c → isPyWs c = false) : pstrip t = t := by
  unfold pstrip
  rw [dropWhile_head_false hh, dropWhile_head_false (by
    intro c hc
    rw [List.head?_reverse] at hc
    exact hl c hc), List.reverse_reverse]

namespace Claims

open TestGeneratorAgent SetUpGuideAgent SwaggerAnalyzerAgent

/-- C1: for every reply formed by joining N well-formed tag-grammar blocks with
pairwise-distinct paths, the delimited-file parser returns exactly N entries
whose keys are the blocks' paths and whose values are the blocks' contents
trimmed of leading/trailing whitespace; N = 0 yields the empty mapping. -/
theorem C1_grammar_completeness (bs : List (AISDLC.Str × AISDLC.Str))
    (hwf : ∀ b ∈ bs, wfBlock b) (hnd : (bs.map Prod.fst).Nodup) :
    tagParse (joinBlocks bs) = bs.map (fun b => (b.1, pstrip b.2))
      ∧ (tagParse (joinBlocks bs)).length = bs.length := by
  have hstrip : ∀ b ∈ bs, pstrip b.1 = b.1 := fun b hb => pstrip_nows (hwf b hb).2.1
  have hnd' : (bs.map (fun m => pstrip m.1)).Nodup := by
    rwa [List.map_congr_left hstrip]
  constructor
  · unfold tagParse
    rw [findTag_join bs hwf, buildFiles_eq bs hnd']
    exact List.map_congr_left fun b hb => by rw [hstrip b hb]
  · unfold tagParse
    rw [findTag_join bs hwf, buildFiles_eq bs hnd']
    simp

/-- C1 witness: the spec's one-block scenario yields exactly the mapping
a.py → print(1), and the empty join yields the empty mapping. -/
theorem C1_grammar_completeness_witness :
    tagParse (">>>FILE_PATH_START<<< a.py >>>FILE_PATH_END<<< >>>FILE_CONTENT_START<<<\nprint(1)\n>>>FILE_CONTENT_END<<<".toList)
        = [("a.py".toList, "print(1)".toList)]
      ∧ tagParse (joinBlocks []) = [] := by
  have h1 := C1_grammar_completeness [("a.py".toList, "print(1)".toList)]
    (by decide) (by decide)
  have h0 := C1_grammar_completeness [] (by intro b hb; cases hb) (by simp)
  refine ⟨?_, h0.1⟩
  have hjoin : joinBlocks [("a.py".toList, "print(1)".toList)]
      = ">>>FILE_PATH_START<<< a.py >>>FILE_PATH_END<<< >>>FILE_CONTENT_START<<<\nprint(1)\n>>>FILE_CONTENT_END<<<".toList := by
    decide
  rw [← hjoin, h1.1]
  decide

/-- C4: two well-formed blocks declaring the same path with different contents
collapse to a single entry holding the second block's trimmed content. -/
theorem C4_duplicate_path_last_wins (p c1 c2 : AISDLC.Str)
    (h1 : wfBlock (p, c1)) (h2 : wfBlock (p, c2)) (hne : c1 ≠ c2) :
    tagParse (joinBlocks [(p, c1), (p, c2)]) = [(p, pstrip c2)] := by
  unfold tagParse
  rw [findTag_join _ (by
    intro b hb
    simp only [List.mem_cons, List.mem_singleton] at hb
    rcases hb with rfl | rfl | hfalse
    · exact h1
    · exact h2
    · cases hfalse)]
  have hk : pstrip p = p := pstrip_nows h1.2.1
  simp [buildFiles, dictInsert, hk]

/-- C4 witness: two blocks for x.py with contents a and b yield one entry
x.py → b. -/
theorem C4_duplicate_path_last_wins_witness :
    tagParse (joinBlocks [("x.py".toList, "a".toList), ("x.py".toList, "b".toList)])
        = [("x.py".toList, "b".toList)]
      ∧ ("a".toList : AISDLC.Str) ≠ "b".toList := by
  refine ⟨?_, by decide⟩
  have h := C4_duplicate_path_last_wins "x.py".toList "a".toList "b".toList
    (by decide) (by decide) (by decide)
  rw [h]
  decide

/-- C2: on a reply where both the tag grammar and the .py fallback scraper find
nothing, `generate_tests` appends exactly one error entry carrying a preview of
the raw reply bounded to 1000 characters, sets `unit_tests` to the empty
mapping, and still advances `current_step` to the next stage name; the
setup-guide stage behaves the same for its slot (dot fallback). -/
theorem C2_no_files_soft_failure (s : WorkflowState) (content : AISDLC.Str)
    (h1 : findTagBlocks (pstrip content) = [])
    (h2 : findallFallback litPy (pstrip content) = [])
    (h3 : findallFallback litDot (pstrip content) = []) :
    ((generate_tests s (.ok content)).errors
        = s.errors ++ [errNoFiles ((pstrip content).take 1000)]
      ∧ (generate_tests s (.ok content)).unit_tests = []
      ∧ (generate_tests s (.ok content)).current_step = "generated_container_code".toList)
    ∧ ((SetUpGuideAgent.generate_code s (.ok content)).errors
        = s.errors ++ [errNoFiles ((pstrip content).take 1000)]
      ∧ (SetUpGuideAgent.generate_code s (.ok content)).generated_readme_code = []
      ∧ (SetUpGuideAgent.generate_code s (.ok content)).current_step
          = "generated_readme_code".toList) := by
  constructor
  · unfold TestGeneratorAgent.generate_tests
    simp [h1, h2]
  · unfold SetUpGuideAgent.generate_code
    simp [h1, h3]

/-- C2 witness: the reply "hello" has no tag-grammar match and no fallback
match, so the degraded path is taken. -/
theorem C2_no_files_soft_failure_witness :
    findTagBlocks (pstrip "hello".toList) = []
      ∧ findallFallback litPy (pstrip "hello".toList) = []
      ∧ (generate_tests (initialState (.obj [])) (.ok "hello".toList)).unit_tests = []
      ∧ (generate_tests (initialState (.obj [])) (.ok "hello".toList)).errors
          = [errNoFiles ((pstrip "hello".toList).take 1000)] := by
  have h := C2_no_files_soft_failure (initialState (.obj [])) "hello".toList
    (by decide) (by decide) (by decide)
  exact ⟨by decide, by decide, h.1.2.1, h.1.1⟩

/-- C9: every stage only appends to the errors list: the input state's errors
sequence is a prefix of the returned state's errors sequence on every path
(success, degraded and exception) of all four modelled stages. -/
theorem C9_errors_append_only (s : WorkflowState) (r : LLMReply) :
    s.errors <+: (generate_tests s r).errors
      ∧ s.errors <+: (SetUpGuideAgent.generate_code s r).errors
      ∧ s.errors <+: (ProductionMonitorGenerationAgent.generate_code s r).errors
      ∧ s.errors <+: (analyze s r).errors := by
  refine ⟨?_, ?_, ?_, ?_⟩
  · cases r with
    | exn e => exact ⟨_, rfl⟩
    | ok content =>
      unfold TestGeneratorAgent.generate_tests
      dsimp only
      split
      · split
        · exact ⟨[], by simp⟩
        · exact ⟨_, rfl⟩
      · exact ⟨[], by simp⟩
  · cases r with
    | exn e => exact ⟨_, rfl⟩
    | ok content =>
      unfold SetUpGuideAgent.generate_code
      dsimp only
      split
      · split
        · exact ⟨[], by simp⟩
        · exact ⟨_, rfl⟩
      · exact ⟨[], by simp⟩
  · cases r with
    | exn e => exact ⟨_, rfl⟩
    | ok content =>
      unfold ProductionMonitorGenerationAgent.generate_code
      dsimp only
      split
      · split
        · exact ⟨[], by simp⟩
        · exact ⟨_, rfl⟩
      · exact ⟨[], by simp⟩
  · cases r with
    | exn e => exact ⟨_, rfl⟩
    | ok content =>
      unfold SwaggerAnalyzerAgent.analyze
      dsimp only
      split
      · exact ⟨[], by simp⟩
      · exact ⟨_, rfl⟩

/-- C10: the unit-test generation stage writes only its own output slots: the
returned state agrees with the input state on every field other than
`unit_tests`, `generated_zip`, `current_step` and `errors`. -/
theorem C10_generate_tests_frame (s : WorkflowState) (r : LLMReply) :
    (generate_tests s r).swagger_content = s.swagger_content
      ∧ (generate_tests s r).user_stories = s.user_stories
      ∧ (generate_tests s r).generated_code = s.generated_code
      ∧ (generate_tests s r).metadata = s.metadata
      ∧ (generate_tests s r).generated_container_code = s.generated_container_code
      ∧ (generate_tests s r).generated_readme_code = s.generated_readme_code
      ∧ (generate_tests s r).generated_monitor_configs = s.generated_monitor_configs := by
  cases r with
  | exn e => exact ⟨rfl, rfl, rfl, rfl, rfl, rfl, rfl⟩
  | ok content =>
    unfold TestGeneratorAgent.generate_tests
    dsimp only
    split
    · split
      · exact ⟨rfl, rfl, rfl, rfl, rfl, rfl, rfl⟩
      · exact ⟨rfl, rfl, rfl, rfl, rfl, rfl, rfl⟩
    · exact ⟨rfl, rfl, rfl, rfl, rfl, rfl, rfl⟩

/-- C8 amended: the archive tracks each file-producing stage's own successful
extraction only: when a stage finds files (by grammar or fallback) its
`generated_zip` holds exactly the produced file-set's pairs in iteration order
and reads back as that file-set; when a stage extracts no files it leaves
`generated_zip` unchanged from the previous stage (so it can describe an older
file-set while the most recent file-set slot is the empty mapping). Stated for
all three modelled file-producing stages: unit-test generation, setup-guide
generation and monitor-config generation. -/
theorem C8_archive_amended (s : WorkflowState) (content : AISDLC.Str) :
    ((findTagBlocks (pstrip content) = [] → findallFallback litPy (pstrip content) = [] →
        (generate_tests s (.ok content)).generated_zip = s.generated_zip)
    ∧ (findTagBlocks (pstrip content) ≠ [] →
        (generate_tests s (.ok content)).unit_tests
            = buildFiles (findTagBlocks (pstrip content))
          ∧ (generate_tests s (.ok content)).generated_zip
            = some (mkZip (buildFiles (findTagBlocks (pstrip content))))
          ∧ readZip (mkZip (buildFiles (findTagBlocks (pstrip content))))
            = buildFiles (findTagBlocks (pstrip content)))
    ∧ (findTagBlocks (pstrip content) = [] → findallFallback litPy (pstrip content) ≠ [] →
        (generate_tests s (.ok content)).unit_tests
            = buildFiles (findallFallback litPy (pstrip content))
          ∧ (generate_tests s (.ok content)).generated_zip
            = some (mkZip (buildFiles (findallFallback litPy (pstrip content))))))
    ∧ ((findTagBlocks (pstrip content) = [] → findallFallback litDot (pstrip content) = [] →
        (SetUpGuideAgent.generate_code s (.ok content)).generated_zip = s.generated_zip)
    ∧ (findTagBlocks (pstrip content) ≠ [] →
        (SetUpGuideAgent.generate_code s (.ok content)).generated_readme_code
            = buildFiles (findTagBlocks (pstrip content))
          ∧ (SetUpGuideAgent.generate_code s (.ok content)).generated_zip
            = some (mkZip (buildFiles (findTagBlocks (pstrip content))))
          ∧ readZip (mkZip (buildFiles (findTagBlocks (pstrip content))))
            = buildFiles (findTagBlocks (pstrip content)))
    ∧ (findTagBlocks (pstrip content) = [] → findallFallback litDot (pstrip content) ≠ [] →
        (SetUpGuideAgent.generate_code s (.ok content)).generated_readme_code
            = buildFiles (findallFallback litDot (pstrip content))
          ∧ (SetUpGuideAgent.generate_code s (.ok content)).generated_zip
            = some (mkZip (buildFiles (findallFallback litDot (pstrip content))))))
    ∧ ((findTagBlocks (pstrip content) = [] → findallFallback litDot (pstrip content) = [] →
        (ProductionMonitorGenerationAgent.generate_code s (.ok content)).generated_zip
          = s.generated_zip)
    ∧ (findTagBlocks (pstrip content) ≠ [] →
        (ProductionMonitorGenerationAgent.generate_code s (.ok content)).generated_monitor_configs
            = buildFiles (findTagBlocks (pstrip content))
          ∧ (ProductionMonitorGenerationAgent.generate_code s (.ok content)).generated_zip
            = some (mkZip (buildFiles (findTagBlocks (pstrip content))))
          ∧ readZip (mkZip (buildFiles (findTagBlocks (pstrip content))))
            = buildFiles (findTagBlocks (pstrip content)))
    ∧ (findTagBlocks (pstrip content) = [] → findallFallback litDot (pstrip content) ≠ [] →
        (ProductionMonitorGenerationAgent.generate_code s (.ok content)).generated_monitor_configs
            = buildFiles (findallFallback litDot (pstrip content))
          ∧ (ProductionMonitorGenerationAgent.generate_code s (.ok content)).generated_zip
            = some (mkZip (buildFiles (findallFallback litDot (pstrip content)))))) := by
  refine ⟨⟨fun h1 h2 => ?_, fun h1 => ?_, fun h1 h2 => ?_⟩,
    ⟨fun h1 h2 => ?_, fun h1 => ?_, fun h1 h2 => ?_⟩,
    ⟨fun h1 h2 => ?_, fun h1 => ?_, fun h1 h2 => ?_⟩⟩
  · unfold TestGeneratorAgent.generate_tests
    simp [h1, h2]
  · unfold TestGeneratorAgent.generate_tests
    simp [List.isEmpty_iff, h1, readZip, mkZip]
  · unfold TestGeneratorAgent.generate_tests
    simp [List.isEmpty_iff, h1, h2]
  · unfold SetUpGuideAgent.generate_code
    simp [h1, h2]
  · unfold SetUpGuideAgent.generate_code
    simp [List.isEmpty_iff, h1, readZip, mkZip]
  · unfold SetUpGuideAgent.generate_code
    simp [List.isEmpty_iff, h1, h2]
  · unfold ProductionMonitorGenerationAgent.generate_code
    simp [h1, h2]
  · unfold ProductionMonitorGenerationAgent.generate_code
    simp [List.isEmpty_iff, h1, readZip, mkZip]
  · unfold ProductionMonitorGenerationAgent.generate_code
    simp [List.isEmpty_iff, h1, h2]

/-- C8 counterexample: a successful stage followed by a stage that extracts
nothing leaves a stale archive: the final state's `unit_tests` (the most
recently produced file-set) is empty while `generated_zip` still holds the
earlier stage's entry a.py → print(1). -/
theorem C8_stale_zip_counterexample :
    (generate_tests (generate_tests (initialState (.obj []))
          (.ok ">>>FILE_PATH_START<<< a.py >>>FILE_PATH_END<<< >>>FILE_CONTENT_START<<<\nprint(1)\n>>>FILE_CONTENT_END<<<".toList))
        (.ok "hello".toList)).unit_tests = []
    ∧ ((generate_tests (generate_tests (initialState (.obj []))
          (.ok ">>>FILE_PATH_START<<< a.py >>>FILE_PATH_END<<< >>>FILE_CONTENT_START<<<\nprint(1)\n>>>FILE_CONTENT_END<<<".toList))
        (.ok "hello".toList)).generated_zip.map readZip
      = some [("a.py".toList, "print(1)".toList)])
    ∧ ([("a.py".toList, "print(1)".toList)] : List (AISDLC.Str × AISDLC.Str)) ≠ [] := by
  refine ⟨by decide, by decide, by decide⟩

/-- C8 amended witness: at the stale state above, both a degraded unit-test
stage and a degraded setup-guide stage leave the archive unchanged. -/
theorem C8_archive_amended_witness :
    findTagBlocks (pstrip "hello".toList) = []
      ∧ findallFallback litPy (pstrip "hello".toList) = []
      ∧ findallFallback litDot (pstrip "hello".toList) = []
      ∧ (generate_tests (generate_tests (initialState (.obj []))
            (.ok ">>>FILE_PATH_START<<< a.py >>>FILE_PATH_END<<< >>>FILE_CONTENT_START<<<\nprint(1)\n>>>FILE_CONTENT_END<<<".toList))
          (.ok "hello".toList)).generated_zip
        = (generate_tests (initialState (.obj []))
            (.ok ">>>FILE_PATH_START<<< a.py >>>FILE_PATH_END<<< >>>FILE_CONTENT_START<<<\nprint(1)\n>>>FILE_CONTENT_END<<<".toList)).generated_zip
      ∧ (SetUpGuideAgent.generate_code (generate_tests (initialState (.obj []))
            (.ok ">>>FILE_PATH_START<<< a.py >>>FILE_PATH_END<<< >>>FILE_CONTENT_START<<<\nprint(1)\n>>>FILE_CONTENT_END<<<".toList))
          (.ok "hello".toList)).generated_zip
        = (generate_tests (initialState (.obj []))
            (.ok ">>>FILE_PATH_START<<< a.py >>>FILE_PATH_END<<< >>>FILE_CONTENT_START<<<\nprint(1)\n>>>FILE_CONTENT_END<<<".toList)).generated_zip := by
  refine ⟨by decide, by decide, by decide, ?_, ?_⟩
  · exact (C8_archive_amended (generate_tests (initialState (.obj []))
        (.ok ">>>FILE_PATH_START<<< a.py >>>FILE_PATH_END<<< >>>FILE_CONTENT_START<<<\nprint(1)\n>>>FILE_CONTENT_END<<<".toList))
      "hello".toList).1.1 (by decide) (by decide)
  · exact (C8_archive_amended (generate_tests (initialState (.obj []))
        (.ok ">>>FILE_PATH_START<<< a.py >>>FILE_PATH_END<<< >>>FILE_CONTENT_START<<<\nprint(1)\n>>>FILE_CONTENT_END<<<".toList))
      "hello".toList).2.1.1 (by decide) (by decide)

/-- C7 counterexample: with the setup-guide stage's scraper, the path-like
token `readme.md` (extension present) produces the key `readme.` — the
extension is dropped from the captured key, contradicting "retaining its
extension when present". The tag grammar yields zero matches on this reply, so
the fallback is the active parser, and the stage stores the truncated key. -/
theorem C7_extension_dropped_counterexample :
    findTagBlocks ("readme.md\n```hello```".toList) = []
      ∧ fallbackParse litDot ("readme.md\n```hello```".toList)
          = [("readme.".toList, "hello".toList)]
      ∧ ("readme.".toList : AISDLC.Str) ≠ "readme.md".toList
      ∧ (SetUpGuideAgent.generate_code (initialState (.obj []))
            (.ok "readme.md\n```hello```".toList)).generated_readme_code
          = [("readme.".toList, "hello".toList)] := by
  exact ⟨by decide, by decide, by decide, by decide⟩

/-- C7 amended: each fallback entry pairs a word-run token followed by the
scraper's literal with the body of the next fenced code block, path trimmed and
content trimmed — but the captured key is the run plus the literal only: with
the unit-test scraper's literal `.py` (`lt = "py"`) the extension is kept,
while with the setup-guide and monitor scrapers' literal `.` (`lt = []`) the
key ends at the dot and the extension is excluded. -/
theorem C7_fallback_scraper_amended (u lt mid body : AISDLC.Str)
    (hu : ∀ c ∈ u, isWordChar c = true) (hune : u ≠ [])
    (hlt : ∀ c ∈ lt, isPyWs c = false)
    (hmid : ∀ c ∈ mid, c ≠ btChar) (hbody : ∀ c ∈ body, c ≠ btChar) :
    fallbackParse ('.' :: lt)
        (u ++ '.' :: (lt ++ (mid ++ (fenceM ++ (body ++ (fenceM ++ []))))))
      = [(u ++ '.' :: lt, pstrip body)] := by
  have key_nows : ∀ c ∈ u ++ '.' :: lt, isPyWs c = false := by
    intro c hc
    rcases List.mem_append.mp hc with h1 | h2
    · exact word_not_ws (hu c h1)
    · rcases List.mem_cons.mp h2 with rfl | h3
      · rfl
      · exact hlt c h3
  obtain ⟨a, u', rfl⟩ : ∃ a u', u = a :: u' := by
    cases u with
    | nil => exact absurd rfl hune
    | cons a u' => exact ⟨a, u', rfl⟩
  have htf := @tryFallbackAt_mk lt (a :: u') mid body [] hu hune hmid hbody
  unfold fallbackParse
  rw [show ((a :: u') ++ '.' :: (lt ++ (mid ++ (fenceM ++ (body ++ (fenceM ++ []))))))
      = a :: (u' ++ '.' :: (lt ++ (mid ++ (fenceM ++ (body ++ (fenceM ++ [])))))) from rfl]
  rw [findallFallback_pos (by exact htf)]
  simp only [buildFiles, List.foldl_cons, List.foldl_nil]
  rw [dictInsert_fresh [] _ _ (by intro q hq; cases hq)]
  rw [pstrip_nows key_nows]
  rfl

/-- C7 amended witness: a py-literal instance, t.py with fenced body x. -/
theorem C7_fallback_scraper_amended_witness :
    fallbackParse litPy
        ("t".toList ++ '.' :: ("py".toList ++ ('\n' :: [] ++ (fenceM ++ ("x".toList ++ (fenceM ++ []))))))
      = [("t.py".toList, pstrip "x".toList)]
    ∧ ("t".toList ++ '.' :: ("py".toList ++ ('\n' :: [] ++ (fenceM ++ ("x".toList ++ (fenceM ++ []))))))
      = "t.py\n```x```".toList := by
  refine ⟨?_, by decide⟩
  exact C7_fallback_scraper_amended "t".toList "py".toList ('\n' :: []) "x".toList
    (by decide) (by decide) (by decide) (by decide) (by decide)

/-- C3 counterexample: `\x7b"a": 1` is a JSON object text missing exactly one
trailing closing token (appending `\x7d` parses), yet `safe_json_loads` fails
with the malformed error instead of recovering — no bracket extraction or
repair pass exists in the code. -/
theorem C3_no_repair_counterexample :
    safe_json_loads ("\x7b\"a\": 1".toList)
        = .error (.malformed ("\x7b\"a\": 1".toList))
      ∧ json_loads ("\x7b\"a\": 1\x7d".toList)
        = some (.obj [("a".toList, .num ("1".toList))]) := by
  exact ⟨rfl, rfl⟩

/-- C3 amended: the structured-reply parser has no recovery path: it succeeds
exactly when direct JSON parsing of the normalized text succeeds, and when that
parse fails on a non-empty reply it fails immediately with the malformed error
carrying the bounded preview of the normalized text; no bracket-substring
extraction and no closing-token repair is ever attempted. -/
theorem C3_no_repair_amended (s : AISDLC.Str) :
    (∀ v, safe_json_loads s = .ok v
        ↔ (pstrip s ≠ [] ∧ json_loads (normalize s) = some v))
      ∧ (pstrip s ≠ [] → json_loads (normalize s) = none →
          safe_json_loads s = .error (.malformed ((normalize s).take 500))) := by
  constructor
  · intro v
    unfold safe_json_loads
    cases he : (pstrip s).isEmpty with
    | true =>
      have hnil : pstrip s = [] := List.isEmpty_iff.mp he
      simp [hnil]
    | false =>
      have hne : pstrip s ≠ [] := by
        intro e
        rw [e] at he
        cases he
      simp only [Bool.false_eq_true, if_false]
      cases hj : json_loads (normalize s) with
      | none => simp [hne, hj]
      | some w => simp [hne, hj]
  · intro hne hj
    unfold safe_json_loads
    have he : (pstrip s).isEmpty = false := by
      cases hx : (pstrip s).isEmpty
      · rfl
      · exact absurd (List.isEmpty_iff.mp hx) hne
    simp only [he, Bool.false_eq_true, if_false]
    rw [hj]

/-- C3 amended witness: the truncated object `\x7b"a": 1` takes the immediate
malformed-failure path. -/
theorem C3_no_repair_amended_witness :
    pstrip ("\x7b\"a\": 1".toList) ≠ []
      ∧ json_loads (normalize ("\x7b\"a\": 1".toList)) = none
      ∧ safe_json_loads ("\x7b\"a\": 1".toList)
          = .error (.malformed ((normalize ("\x7b\"a\": 1".toList)).take 500)) := by
  refine ⟨by decide, by rfl, ?_⟩
  exact (C3_no_repair_amended ("\x7b\"a\": 1".toList)).2 (by decide) (by rfl)

/-- C5 counterexample: for the fenced reply "```json" + newline + "bad", the
malformed error carries the preview of the fence-stripped text ("bad"), not a
truncation of the original text. -/
theorem C5_preview_counterexample :
    safe_json_loads ("```json\nbad".toList) = .error (.malformed ("bad".toList))
      ∧ ("```json\nbad".toList).take 500 ≠ ("bad".toList : AISDLC.Str) := by
  exact ⟨rfl, by decide⟩

/-- C5 amended: the empty-reply error occurs exactly on empty or
whitespace-only input; every other input on which parsing fails yields the
malformed error whose preview is the normalized (fence-stripped) text truncated
to 500 characters; every other input returns the decoded JSON value. -/
theorem C5_error_contract_amended (s : AISDLC.Str) :
    (safe_json_loads s = .error .emptyReply ↔ pstrip s = [])
      ∧ (pstrip s ≠ [] → json_loads (normalize s) = none →
          safe_json_loads s = .error (.malformed ((normalize s).take 500))
            ∧ ((normalize s).take 500).length ≤ 500)
      ∧ (∀ v, pstrip s ≠ [] → json_loads (normalize s) = some v →
          safe_json_loads s = .ok v) := by
  refine ⟨?_, fun hne hj => ⟨?_, ?_⟩, fun v hne hj => ?_⟩
  · unfold safe_json_loads
    cases he : (pstrip s).isEmpty with
    | true => simp [List.isEmpty_iff.mp he]
    | false =>
      have hne : pstrip s ≠ [] := by
        intro e
        rw [e] at he
        cases he
      simp only [Bool.false_eq_true, if_false]
      cases hj : json_loads (normalize s) with
      | none => simp [hne, hj]
      | some w => simp [hne, hj]
  · unfold safe_json_loads
    have he : (pstrip s).isEmpty = false := by
      cases hx : (pstrip s).isEmpty
      · rfl
      · exact absurd (List.isEmpty_iff.mp hx) hne
    simp only [he, Bool.false_eq_true, if_false]
    rw [hj]
  · exact List.length_take_le _ _
  · unfold safe_json_loads
    have he : (pstrip s).isEmpty = false := by
      cases hx : (pstrip s).isEmpty
      · rfl
      · exact absurd (List.isEmpty_iff.mp hx) hne
    simp only [he, Bool.false_eq_true, if_false]
    rw [hj]

/-- C5 amended witness: the spec's scenario "not json at all" fails with the
malformed error carrying the (here unchanged) text as preview. -/
theorem C5_error_contract_amended_witness :
    pstrip ("not json at all".toList) ≠ []
      ∧ json_loads (normalize ("not json at all".toList)) = none
      ∧ safe_json_loads ("not json at all".toList)
          = .error (.malformed ("not json at all".toList)) := by
  refine ⟨by decide, by rfl, ?_⟩
  exact ((C5_error_contract_amended ("not json at all".toList)).2.1
    (by decide) (by rfl)).1

/-- C6 counterexample: the text "x", newline, three backticks, newline, "y" is
already stripped and its fence line is neither at the very start nor at the
very end, yet the normalizer (running both substitutions with re.MULTILINE)
removes it. -/
theorem C6_interior_fence_counterexample :
    normalize ("x\n```\ny".toList) = "x\n\ny".toList
      ∧ normalize ("x\n```\ny".toList) ≠ "x\n```\ny".toList
      ∧ pstrip ("x\n```\ny".toList) = "x\n```\ny".toList :=
  ⟨rfl, by decide, rfl⟩

/-- C6 amended: fence markers are removed per line, not only at the text's
ends: an interior line consisting of three backticks is removed by the first
pass (line-start match), and three backticks ending an interior line are
removed by the second pass (line-end match); backtick-free segments are copied
unchanged. Stated for a backtick-free stripped prefix u and suffix v. -/
theorem C6_normalizer_amended (u v : AISDLC.Str)
    (hubt : ∀ c ∈ u, c ≠ btChar) (hvbt : ∀ c ∈ v, c ≠ btChar)
    (hu0 : u ≠ []) (hv0 : v ≠ [])
    (huhB : u.head?.all (fun c => ! isPyWs c) = true)
    (hulB : u.getLast?.all (fun c => ! isPyWs c) = true)
    (hvlB : v.getLast?.all (fun c => ! isPyWs c) = true) :
    normalize (u ++ '\n' :: (fenceM ++ '\n' :: v)) = u ++ '\n' :: '\n' :: v
      ∧ normalize (u ++ (fenceM ++ '\n' :: v)) = u ++ '\n' :: v := by
  have huh : ∀ c, u.head? = some c → isPyWs c = false := by
    intro c hc
    rw [hc] at huhB
    simpa using huhB
  have hul : ∀ c, u.getLast? = some c → isPyWs c = false := by
    intro c hc
    rw [hc] at hulB
    simpa using hulB
  have hvl : ∀ c, v.getLast? = some c → isPyWs c = false := by
    intro c hc
    rw [hc] at hvlB
    simpa using hvlB
  have hnl_bt : ('\n' : Char) ≠ btChar := by decide
  have hj_nl : ∀ X : AISDLC.Str, fenceJsonM.isPrefixOf ('\n' :: X) = false :=
    fun X => isPrefixOf_bt_head X ⟨_, rfl⟩ hnl_bt
  have hf_nl : ∀ X : AISDLC.Str, fenceM.isPrefixOf ('\n' :: X) = false :=
    fun X => isPrefixOf_bt_head X ⟨_, rfl⟩ hnl_bt
  have hjx : fenceJsonM.isPrefixOf (fenceM ++ ('\n' :: v)) = false := by
    rw [show fenceM ++ ('\n' :: v) = btChar :: btChar :: btChar :: '\n' :: v from rfl,
      fenceJsonM_eq]
    simp [List.isPrefixOf]
  have hfence_nonl : ∀ c ∈ fenceM, c ≠ '\n' := by
    intro c hc
    simp [fenceM] at hc
    subst hc
    decide
  have hps_a : pstrip (u ++ '\n' :: (fenceM ++ '\n' :: v))
      = u ++ '\n' :: (fenceM ++ '\n' :: v) := by
    apply pstrip_id
    · intro c hc
      rw [List.head?_append_of_ne_nil u hu0] at hc
      exact huh c hc
    · intro c hc
      rw [show u ++ '\n' :: (fenceM ++ '\n' :: v)
          = (u ++ '\n' :: (fenceM ++ ['\n'])) ++ v by simp] at hc
      rw [getLast?_app_ne hv0] at hc
      exact hvl c hc
  have hps_a2 : pstrip (u ++ '\n' :: '\n' :: v) = u ++ '\n' :: '\n' :: v := by
    apply pstrip_id
    · intro c hc
      rw [List.head?_append_of_ne_nil u hu0] at hc
      exact huh c hc
    · intro c hc
      rw [show u ++ '\n' :: '\n' :: v = (u ++ ['\n', '\n']) ++ v by simp] at hc
      rw [getLast?_app_ne hv0] at hc
      exact hvl c hc
  have hps_b : pstrip (u ++ (fenceM ++ '\n' :: v)) = u ++ (fenceM ++ '\n' :: v) := by
    apply pstrip_id
    · intro c hc
      rw [List.head?_append_of_ne_nil u hu0] at hc
      exact huh c hc
    · intro c hc
      rw [show u ++ (fenceM ++ '\n' :: v) = (u ++ (fenceM ++ ['\n'])) ++ v by simp] at hc
      rw [getLast?_app_ne hv0] at hc
      exact hvl c hc
  have hsub1a : sub1 (u ++ '\n' :: (fenceM ++ '\n' :: v)) = u ++ '\n' :: '\n' :: v := by
    rw [sub1_eq_run, sub1Run_app_nobt u _ true hubt]
    rw [sub1Run_cons_any (lastFlag true u) '\n' _ (hj_nl _) (hf_nl _)]
    simp only [show ('\n' == '\n') = true from rfl]
    rw [sub1Run_fence ('\n' :: v) hjx]
    rw [sub1Run_cons_any false '\n' v (hj_nl _) (hf_nl _)]
    simp only [show ('\n' == '\n') = true from rfl]
    rw [sub1Run_id_nobt v true hvbt]
  have hsub1b : sub1 (u ++ (fenceM ++ '\n' :: v)) = u ++ (fenceM ++ '\n' :: v) := by
    rw [sub1_eq_run, sub1Run_app_nobt u _ true hubt, lastFlag_true_of_last hu0 hul]
    rw [sub1Run_app_nonl fenceM _ hfence_nonl]
    rw [sub1Run_cons_any false '\n' v (hj_nl _) (hf_nl _)]
    simp only [show ('\n' == '\n') = true from rfl]
    rw [sub1Run_id_nobt v true hvbt]
  have hbt_a : ∀ c ∈ u ++ '\n' :: '\n' :: v, c ≠ btChar := by
    intro c hc
    rcases List.mem_append.mp hc with h | h
    · exact hubt c h
    · rcases List.mem_cons.mp h with rfl | h
      · exact hnl_bt
      · rcases List.mem_cons.mp h with rfl | h
        · exact hnl_bt
        · exact hvbt c h
  constructor
  · unfold normalize
    rw [hps_a, hsub1a, hps_a2, sub2_id_nobt _ hbt_a]
  · unfold normalize
    rw [hps_b, hsub1b, hps_b]
    rw [sub2_app_nobt u _ hubt, sub2_fence_nl v, sub2_cons_char '\n' v hnl_bt,
      sub2_id_nobt v hvbt]

/-- C6 amended witness: the counterexample text in its decomposed form. -/
theorem C6_normalizer_amended_witness :
    normalize ("x".toList ++ '\n' :: (fenceM ++ '\n' :: "y".toList))
        = "x".toList ++ '\n' :: '\n' :: "y".toList
      ∧ ("x".toList ++ '\n' :: (fenceM ++ '\n' :: "y".toList)) = "x\n```\ny".toList := by
  refine ⟨?_, by decide⟩
  exact (C6_normalizer_amended "x".toList "y".toList (by decide) (by decide) (by decide)
    (by decide) (by decide) (by decide) (by decide)).1

end Claims

end AISDLC
